import Mathlib

/-!
Verification of the cargo placement and retrieval algorithms.

This file gives a shallow embedding, in Lean 4, of the core algorithms of the
repository and proves the stated properties about them:

* `SparseMatrix` and its `is_occupied` / `occupy` / `clear` /
  `get_occupied_regions` operations (src/algos/placement_algo.py),
* `AdvancedCargoPlacement` with `get_90degree_rotations`, `_can_place_item`,
  `_find_best_position`, `rearrange_for_new_item` and `find_optimal_placement`
  (src/algos/placement_algo.py),
* `ItemSearchSystem._calculate_retrieval_steps` (src/algos/search_algo.py),
* `PriorityAStarRetrieval` with `calculate_priority_score`,
  `find_retrieval_path` and `reconstruct_path`
  (src/space_cargo_management/algos/retrieve_algo.py).

Modelling conventions, applied uniformly:

* Python `float` values are modelled as exact rationals (`ℚ`); the claims under
  study never depend on rounding of binary floating point.  The single
  exception is the Euclidean rearrangement cost, which contains a square root
  and is therefore modelled in `ℝ`; no claim depends on its value, only on
  which list element an argmin over it selects.
* Python `int` is `ℤ`; `int(x)` truncation toward zero is `ratTrunc`;
  Python floor division `//` is `Int.fdiv`.
* Python dicts are association lists that preserve insertion order (as Python
  dicts do); Python sets of hashable tuples are `Finset`s.
* String item identifiers are modelled as integer codes (the search system
  converts them with `int(...)` for its output anyway); item names are opaque
  integer codes as well.
* The retrieval search mutates `RetrievalNode` objects in place and re-pushes
  the same object into its `heapq` priority queue, so queue entries alias the
  node map.  The Python object graph is therefore modelled explicitly: an
  allocation store lists every node ever created, a node reference is an index
  into the store, and CPython's `heappush`/`heappop` (with `_siftdown` and
  `_siftup`) are transcribed operation by operation over a list of references,
  comparing the referenced nodes with `RetrievalNode.__lt__` at the moment
  each comparison happens.  Loops that the source runs unboundedly are given
  explicit fuel; every theorem about the search either evaluates a concrete
  run well within its fuel or is conditional on the search returning a
  result, so no fuel-sufficiency assumption is ever used.
* A `try/except`-free Python function that can raise (e.g. through an
  attribute access on `None`) is modelled with an `Option` result, `none`
  standing for the raised exception.

The file is organised with all definitions first and all theorems after them.
-/

/-- Truncation of a rational toward zero, the behaviour of Python `int()` on
floats. -/
def ratTrunc (q : ℚ) : ℤ :=
  if 0 ≤ q then ⌊q⌋ else ⌈q⌉

/-- The list of integers from `a` to `b` inclusive, Python `range(a, b + 1)`. -/
def intRange (a b : ℤ) : List ℤ :=
  (List.range (b + 1 - a).toNat).map (fun k => a + Int.ofNat k)

/-- A grid cell index, a triple of floor-divided coordinates. -/
abbrev Cell := ℤ × ℤ × ℤ

/-- A registered axis-aligned region
`(x_start, y_start, z_start, x_end, y_end, z_end)`. -/
abbrev Region := ℤ × ℤ × ℤ × ℤ × ℤ × ℤ

/-- The state of the `SparseMatrix` spatial occupancy index
(src/algos/placement_algo.py, class `SparseMatrix`).  The Python
`defaultdict(set)` named `grid` maps each cell to the set of region tuples
registered in it; a key holding an empty set is observationally equal to an
absent key for every operation of the class, so the dict of sets is modelled
as the `Finset` of (cell, region) pairs.  `item_positions` is never used by
the class and is omitted. -/
structure SparseMatrix where
  width_cm : ℤ
  depth_cm : ℤ
  height_cm : ℤ
  grid_size : ℤ
  grid : Finset (Cell × Region)
  occupied_cells : Finset Cell
deriving DecidableEq

namespace SparseMatrix

/-- Constructor: `SparseMatrix(width_cm, depth_cm, height_cm, grid_size=10)`,
which truncates the dimensions with `int()` and starts empty. -/
def init (width_cm depth_cm height_cm : ℚ) : SparseMatrix :=
  { width_cm := ratTrunc width_cm
    depth_cm := ratTrunc depth_cm
    height_cm := ratTrunc height_cm
    grid_size := 10
    grid := ∅
    occupied_cells := ∅ }

/-- Method `_get_grid_cell`: floor division of each coordinate by the grid
size. -/
def getGridCell (m : SparseMatrix) (x y z : ℤ) : Cell :=
  (x.fdiv m.grid_size, y.fdiv m.grid_size, z.fdiv m.grid_size)

/-- The inclusive triple loop
`for x in range(start_cell[0], end_cell[0] + 1): ...` shared by
`is_occupied`, `occupy` and `clear`. -/
def cellsSpanned (m : SparseMatrix) (xs ys zs xe ye ze : ℤ) : List Cell :=
  let s := m.getGridCell xs ys zs
  let e := m.getGridCell xe ye ze
  (intRange s.1 e.1).flatMap fun cx =>
    (intRange s.2.1 e.2.1).flatMap fun cy =>
      (intRange s.2.2 e.2.2).map fun cz => (cx, cy, cz)

/-- Whether a cell's region set is non-empty, the truthiness test
`(x, y, z) in self.grid and self.grid[(x, y, z)]`. -/
def cellBusy (m : SparseMatrix) (c : Cell) : Bool :=
  decide (m.grid.filter (fun p : Cell × Region => p.1 = c)).Nonempty

/-- Method `is_occupied`: true as soon as any spanned cell holds a region. -/
def is_occupied (m : SparseMatrix) (xs ys zs xe ye ze : ℤ) : Bool :=
  (m.cellsSpanned xs ys zs xe ye ze).any fun c => m.cellBusy c

/-- Method `occupy`: register the region tuple in every spanned cell and mark
each of those cells occupied. -/
def occupy (m : SparseMatrix) (xs ys zs xe ye ze : ℤ) : SparseMatrix :=
  (m.cellsSpanned xs ys zs xe ye ze).foldl
    (fun acc c =>
      { acc with
        grid := insert (c, (xs, ys, zs, xe, ye, ze)) acc.grid
        occupied_cells := insert c acc.occupied_cells })
    m

/-- The loop body of `clear` for one cell: discard the exact region tuple
from the cell's set, and prune the cell from `occupied_cells` when its set
becomes empty. -/
def clearStep (R : Region) (acc : SparseMatrix) (c : Cell) : SparseMatrix :=
  let g := acc.grid.erase (c, R)
  if (g.filter (fun p : Cell × Region => p.1 = c)).Nonempty then
    { acc with grid := g }
  else
    { acc with grid := g, occupied_cells := acc.occupied_cells.erase c }

/-- Method `clear`: discard the exact region tuple from every spanned cell,
and prune a cell from `occupied_cells` when its region set becomes empty. -/
def clear (m : SparseMatrix) (xs ys zs xe ye ze : ℤ) : SparseMatrix :=
  (m.cellsSpanned xs ys zs xe ye ze).foldl
    (clearStep (xs, ys, zs, xe, ye, ze)) m

/-- Method `get_occupied_regions`: the union over the occupied cells of the
regions registered in them. -/
def get_occupied_regions (m : SparseMatrix) : Finset Region :=
  (m.grid.filter (fun p => p.1 ∈ m.occupied_cells)).image (fun p => p.2)

end SparseMatrix

/-! ### Item search and retrieval steps (src/algos/search_algo.py) -/

/-- A coordinate triple, dataclass `Coordinates` of search_algo.py. -/
structure Coordinates where
  width_cm : ℚ
  depth_cm : ℚ
  height_cm : ℚ
deriving DecidableEq

/-- A placed box, dataclass `Position` of search_algo.py. -/
structure Position where
  startCoordinates : Coordinates
  endCoordinates : Coordinates
deriving DecidableEq

/-- One placed item as seen by `_calculate_retrieval_steps`: the join of its
cargo-position record (`cargo_data`) with its inventory record (`items_data`,
giving name and priority).  The source looks the priority and name up by item
id for every co-located cargo item, so the join is assumed to exist; string
ids and names are integer codes here. -/
structure PlacedRecord where
  item_id : ℤ
  name : ℤ
  position : Position
  priority : ℤ
deriving DecidableEq

/-- The action field of a retrieval step. -/
inductive StepAction where
  | remove
  | retrieve
  | place
deriving DecidableEq

/-- One emitted retrieval step (the source also carries the item name,
and converts the string id with `int(...)`, which is the identity here). -/
structure RetrievalStep where
  step : ℕ
  action : StepAction
  item_id : ℤ
  item_name : ℤ
deriving DecidableEq

/-- The blocking predicate of `_calculate_retrieval_steps`: the candidate
starts at a strictly lower depth, its width interval overlaps the target's
width interval under the open-interval rule, and its priority is strictly
greater than the target's. -/
def isBlocking (target b : PlacedRecord) : Prop :=
  b.position.startCoordinates.depth_cm < target.position.startCoordinates.depth_cm ∧
    ¬(b.position.endCoordinates.width_cm ≤ target.position.startCoordinates.width_cm ∨
        b.position.startCoordinates.width_cm ≥ target.position.endCoordinates.width_cm) ∧
    b.priority > target.priority

instance (target b : PlacedRecord) : Decidable (isBlocking target b) := by
  unfold isBlocking
  infer_instance

/-- The `blocking_items` list built by the first loop of
`_calculate_retrieval_steps`, in the iteration order of the co-located
items. -/
def blockingItems (target : PlacedRecord) (others : List PlacedRecord) :
    List PlacedRecord :=
  others.filter (fun b => decide (isBlocking target b))

/-- The sort key `x["position"]["startCoordinates"]["depth_cm"]` used on the
blocking items. -/
def byDepth (a b : PlacedRecord) : Prop :=
  a.position.startCoordinates.depth_cm ≤ b.position.startCoordinates.depth_cm

instance : DecidableRel byDepth := fun a b => by
  unfold byDepth
  infer_instance

instance : IsTotal PlacedRecord byDepth :=
  ⟨fun _ _ => le_total _ _⟩

instance : IsTrans PlacedRecord byDepth :=
  ⟨fun _ _ _ => le_trans⟩

/-- Consecutively numbered steps of one action for a list of items, the
`for item in ...: steps.append(...); step_number += 1` loops. -/
def numberSteps (a : StepAction) : List PlacedRecord → ℕ → List RetrievalStep
  | [], _ => []
  | b :: t, n => ⟨n, a, b.item_id, b.name⟩ :: numberSteps a t (n + 1)

/-- Method `_calculate_retrieval_steps` given the target item's joined record
and the co-located items of its container (the source's `items_in_container`,
which excludes the target itself): filter the blockers, return the empty list
when there are none, otherwise sort the blockers ascending by start depth
(Python's stable sort) and emit numbered remove steps front-to-back, a single
retrieve step for the target, and place steps in reversed blocker order. -/
def calculate_retrieval_steps (target : PlacedRecord)
    (others : List PlacedRecord) : List RetrievalStep :=
  let blocking := blockingItems target others
  if blocking = [] then []
  else
    let sorted := List.insertionSort byDepth blocking
    numberSteps StepAction.remove sorted 1
      ++ [⟨sorted.length + 1, StepAction.retrieve, target.item_id, target.name⟩]
      ++ numberSteps StepAction.place sorted.reverse (sorted.length + 2)

/-! ### Priority score (src/space_cargo_management/algos/retrieve_algo.py) -/

/-- An inventory record as consumed by `calculate_priority_score`.
`priority` is the raw value with the `.get("priority", 0)` default already
applied; `daysUntilExpiry` is `(expiry - now).days` when `expiryDate` is
present, truthy and parseable (`none` otherwise); `usageLimit` is the parsed
`float(usageLimit)` when the field is present, not `None` and parseable
(`none` otherwise). -/
structure RetrieveItemRecord where
  priority : ℤ
  daysUntilExpiry : Option ℤ
  usageLimit : Option ℚ
deriving DecidableEq

/-- Method `calculate_priority_score`; `none` is a missing item record, for
which the method returns 0.0. -/
def calculate_priority_score (item : Option RetrieveItemRecord) : ℚ :=
  match item with
  | none => 0
  | some it =>
    let priority_score : ℚ := (it.priority : ℚ) / 100
    let expiry_score : ℚ :=
      match it.daysUntilExpiry with
      | some days => max 0.1 (min 1 (1 - (days : ℚ) / 365))
      | none => 1
    let usage_score : ℚ :=
      match it.usageLimit with
      | some u => max 0.1 (min 1 (u / 10))
      | none => 0.5
    0.4 * priority_score + 0.4 * expiry_score + 0.2 * usage_score

/-- Clamping of q into the closed interval lo..hi, written from the claim's
words `clamp(q, lo, hi)` for the comparison in C9. -/
def clampQ (lo hi q : ℚ) : ℚ :=
  max lo (min hi q)

/-! ### Advanced cargo placement (src/algos/placement_algo.py)

The class `AdvancedCargoPlacement` keeps, per container-dimension signature, a
shared mutable state (a `SparseMatrix`, the `current_placements` dict and the
unused `rearrangement_history`); the state is modelled explicitly as
`CPState` and threaded through the methods, the container dimensions as
`ContainerDims`.  `items_dict` entries, the input dicts of
`find_optimal_placement` and the dataclass `ItemDimensions` all carry exactly
the fields width/depth/height (floats), priority and item id, copied field by
field between the three shapes, so one structure is used for all three. -/

/-- Dataclass `Position3D` (integer coordinates). -/
structure Position3D where
  x : ℤ
  y : ℤ
  z : ℤ
deriving DecidableEq

/-- Dataclass `ItemDimensions`; also the shape of `items_dict` values and of
the input item dicts (whose `.get(key, default)` reads are modelled as typed
fields).  The id is an integer code. -/
structure ItemDimensions where
  width_cm : ℚ
  depth_cm : ℚ
  height_cm : ℚ
  priority : ℤ
  item_id : ℤ
deriving DecidableEq

/-- Enum `Rotation`. -/
inductive Rotation where
  | NO_ROTATION
  | ROTATE_X
  | ROTATE_Y
  | ROTATE_Z
deriving DecidableEq

/-- The container dimensions held by `AdvancedCargoPlacement` after the
`int()` conversions of `__init__`. -/
structure ContainerDims where
  width_cm : ℤ
  depth_cm : ℤ
  height_cm : ℤ
deriving DecidableEq

/-- Python-dict update on an insertion-ordered association list: replace the
value in place if the key exists, append otherwise. -/
def dictInsert {α β : Type} [DecidableEq α] (l : List (α × β)) (k : α)
    (v : β) : List (α × β) :=
  if l.any (fun p => p.1 = k) then
    l.map (fun p => if p.1 = k then (k, v) else p)
  else l ++ [(k, v)]

/-- Python `dict.get(k)`: the value at the first (hence unique) occurrence of
the key. -/
def dictGet {α β : Type} [DecidableEq α] (l : List (α × β)) (k : α) :
    Option β :=
  (l.find? (fun p => p.1 = k)).map (fun p => p.2)

/-- The shared per-container state of `AdvancedCargoPlacement`
(`_container_states[container_key]`); `rearrangement_history` is never read
and is omitted. -/
structure CPState where
  space_matrix : SparseMatrix
  current_placements : List (ℤ × Position3D)
  items_dict : List (ℤ × ItemDimensions)
deriving DecidableEq

/-- A fresh shared state for a container, as first built by `__init__`. -/
def CPState.init (cont : ContainerDims) : CPState :=
  { space_matrix := SparseMatrix.init (cont.width_cm : ℚ) (cont.depth_cm : ℚ)
      (cont.height_cm : ℚ)
    current_placements := []
    items_dict := [] }

/-- The kind tag of a rearrangement move. -/
inductive MoveType where
  | temporary
  | final
deriving DecidableEq

/-- One rearrangement move dict (`'from'`/`'to'` are Lean keywords, hence
`fromPos`/`toPos`). -/
structure MoveRecord where
  item_id : ℤ
  fromPos : Position3D
  toPos : Position3D
  type : MoveType
deriving DecidableEq

/-- One placement dict appended to the `placements` output list; the
coordinates are emitted as floats, the end coordinates adding the
untruncated rotated dimensions to the chosen position. -/
structure PlacementOut where
  item_id : ℤ
  startCoordinates : Coordinates
  endCoordinates : Coordinates
  rotation : Rotation
deriving DecidableEq

/-- Method `_can_place_item`: truncate the dimensions, check the container
bounds, then ask the sparse matrix. -/
def can_place_item (cont : ContainerDims) (m : SparseMatrix) (pos : Position3D)
    (item : ItemDimensions) : Bool :=
  let item_width := ratTrunc item.width_cm
  let item_depth := ratTrunc item.depth_cm
  let item_height := ratTrunc item.height_cm
  if pos.x + item_width > cont.width_cm ∨ pos.y + item_depth > cont.depth_cm ∨
      pos.z + item_height > cont.height_cm then
    false
  else
    !(m.is_occupied pos.x pos.y pos.z (pos.x + item_width)
      (pos.y + item_depth) (pos.z + item_height))

/-- Method `_place_item`: occupy the truncated box. -/
def place_item (m : SparseMatrix) (pos : Position3D) (item : ItemDimensions) :
    SparseMatrix :=
  m.occupy pos.x pos.y pos.z (pos.x + ratTrunc item.width_cm)
    (pos.y + ratTrunc item.depth_cm) (pos.z + ratTrunc item.height_cm)

/-- Method `get_90degree_rotations`: the unrotated item first, then each
axis rotation whose swapped dimensions pass the coarse container-bound
admissibility test. -/
def get_90degree_rotations (cont : ContainerDims) (item : ItemDimensions) :
    List (ItemDimensions × Rotation) :=
  [(item, Rotation.NO_ROTATION)]
    ++ (if item.height_cm ≤ (cont.depth_cm : ℚ) ∧
          item.depth_cm ≤ (cont.height_cm : ℚ) then
          [(⟨item.width_cm, item.height_cm, item.depth_cm, item.priority,
              item.item_id⟩, Rotation.ROTATE_X)]
        else [])
    ++ (if item.width_cm ≤ (cont.height_cm : ℚ) ∧
          item.height_cm ≤ (cont.width_cm : ℚ) then
          [(⟨item.height_cm, item.depth_cm, item.width_cm, item.priority,
              item.item_id⟩, Rotation.ROTATE_Y)]
        else [])
    ++ (if item.width_cm ≤ (cont.depth_cm : ℚ) ∧
          item.depth_cm ≤ (cont.width_cm : ℚ) then
          [(⟨item.depth_cm, item.width_cm, item.height_cm, item.priority,
              item.item_id⟩, Rotation.ROTATE_Z)]
        else [])

/-- Python `range(0, n, 10)`: the non-negative multiples of 10 below n. -/
def rangeStep10 (n : ℤ) : List ℤ :=
  (List.range ((n + 9).fdiv 10).toNat).map (fun k => 10 * Int.ofNat k)

/-- The grid-candidate triple loop
`for x in range(0, width - w + 1, 10): for y ...: for z ...` shared by
`_find_best_position` and `_find_temporary_position`, given the truncated
item dimensions. -/
def scanPositions (cont : ContainerDims) (itemW itemD itemH : ℤ) :
    List Position3D :=
  (rangeStep10 (cont.width_cm - itemW + 1)).flatMap fun x =>
    (rangeStep10 (cont.depth_cm - itemD + 1)).flatMap fun y =>
      (rangeStep10 (cont.height_cm - itemH + 1)).map fun z => ⟨x, y, z⟩

/-- Method `_find_temporary_position`: the first scan position where the item
can be placed. -/
def find_temporary_position (cont : ContainerDims) (m : SparseMatrix)
    (item : ItemDimensions) : Option Position3D :=
  (scanPositions cont (ratTrunc item.width_cm) (ratTrunc item.depth_cm)
    (ratTrunc item.height_cm)).find?
    (fun pos => can_place_item cont m pos item)

/-- Method `_calculate_rearrangement_cost`: Euclidean distance (a float
square root, modelled in `ℝ`) times a priority factor. -/
noncomputable def calculate_rearrangement_cost (old_pos new_pos : Position3D)
    (item : ItemDimensions) : ℝ :=
  Real.sqrt (((new_pos.x - old_pos.x) ^ 2 + (new_pos.y - old_pos.y) ^ 2 +
      (new_pos.z - old_pos.z) ^ 2 : ℤ) : ℝ)
    * (1 + (item.priority : ℝ) / 100)

/-- Method `_calculate_rearrangement_cost_for_position`: over every occupied
region overlapping the candidate box, add the cost of moving to a temporary
position of the new item (the source passes the new item, not the displaced
one, to both lookups); regions with no temporary position contribute
nothing.  The Python loop runs over a set; the sum is order-independent. -/
noncomputable def calculate_rearrangement_cost_for_position
    (cont : ContainerDims) (m : SparseMatrix) (pos : Position3D)
    (item : ItemDimensions) : ℝ :=
  let item_width := ratTrunc item.width_cm
  let item_depth := ratTrunc item.depth_cm
  let item_height := ratTrunc item.height_cm
  ∑ region ∈ m.get_occupied_regions.filter
      (fun r : Region =>
        pos.x < r.2.2.2.1 ∧ pos.x + item_width > r.1 ∧
        pos.y < r.2.2.2.2.1 ∧ pos.y + item_depth > r.2.1 ∧
        pos.z < r.2.2.2.2.2 ∧ pos.z + item_height > r.2.2.1),
    match find_temporary_position cont m item with
    | some temp_pos =>
        calculate_rearrangement_cost ⟨region.1, region.2.1, region.2.2.1⟩
          temp_pos item
    | none => 0

open Classical in
/-- The running minimum of `min_rearrangement_cost` / `best_pos` in the
second loop of `_find_best_position`; `none` is the initial
`float('inf')` / `None` pair, which any finite cost beats. -/
noncomputable def minCostFold (costFn : Position3D → ℝ)
    (candidates : List Position3D) : Option (ℝ × Position3D) :=
  candidates.foldl
    (fun acc pos =>
      match acc with
      | none => some (costFn pos, pos)
      | some (mc, mp) =>
        if costFn pos < mc then some (costFn pos, pos) else some (mc, mp))
    none

/-- Method `_find_best_position`: first the scan for a directly placeable
position; failing that, the occupied candidate of minimal rearrangement
cost.  The local truncated dimensions of the source are written inline. -/
noncomputable def find_best_position (cont : ContainerDims) (m : SparseMatrix)
    (item : ItemDimensions) : Option Position3D :=
  match (scanPositions cont (ratTrunc item.width_cm) (ratTrunc item.depth_cm)
      (ratTrunc item.height_cm)).find?
      (fun pos => can_place_item cont m pos item) with
  | some pos => some pos
  | none =>
    (minCostFold
        (fun pos => calculate_rearrangement_cost_for_position cont m pos item)
        ((scanPositions cont (ratTrunc item.width_cm) (ratTrunc item.depth_cm)
          (ratTrunc item.height_cm)).filter
          (fun pos => m.is_occupied pos.x pos.y pos.z
            (pos.x + ratTrunc item.width_cm) (pos.y + ratTrunc item.depth_cm)
            (pos.z + ratTrunc item.height_cm)))).map
      (fun r => r.2)

/-- Method `_find_rearrangement_path`.  With a missing current position the
method returns no moves; otherwise it emits an optional temporary hop and
the final move.  When `target_pos` is `None` (as in every call made by
`rearrange_for_new_item`'s loop) the final-move construction dereferences
`target_pos.x` and raises `AttributeError`, modelled as `none`. -/
def find_rearrangement_path (cont : ContainerDims) (st : CPState)
    (item : ItemDimensions) (target_pos : Option Position3D) :
    Option (List MoveRecord) :=
  match dictGet st.current_placements item.item_id with
  | none => some []
  | some current_pos =>
    let temp_pos := find_temporary_position cont st.space_matrix item
    let moves : List MoveRecord :=
      match temp_pos with
      | some tp => [⟨item.item_id, current_pos, tp, MoveType.temporary⟩]
      | none => []
    match target_pos with
    | none => none
    | some tgt =>
      some (moves ++ [⟨item.item_id, temp_pos.getD current_pos, tgt,
        MoveType.final⟩])

/-- One gathered entry of the `existing_items` list built by
`rearrange_for_new_item`. -/
structure ExistingItem where
  item_id : ℤ
  position : Position3D
  priority : ℤ
  width_cm : ℚ
  depth_cm : ℚ
  height_cm : ℚ
deriving DecidableEq

/-- The ascending priority sort key of `rearrange_for_new_item`. -/
def byPriority (a b : ExistingItem) : Prop :=
  a.priority ≤ b.priority

instance : DecidableRel byPriority := fun a b => by
  unfold byPriority
  infer_instance

instance : IsTotal ExistingItem byPriority :=
  ⟨fun _ _ => le_total _ _⟩

instance : IsTrans ExistingItem byPriority :=
  ⟨fun _ _ _ => le_trans⟩

/-- The rearrangement loop of `rearrange_for_new_item` over the sorted
existing items: the first item yielding a non-empty move list is applied to
`current_placements` (final moves only) and returned with success; an empty
move list tries the next item; a raised `AttributeError` propagates. -/
def rearrangeLoop (cont : ContainerDims) (st : CPState) :
    List ExistingItem → Option (CPState × List MoveRecord × Bool)
  | [] => some (st, [], false)
  | e :: rest =>
    let item_dim : ItemDimensions :=
      ⟨e.width_cm, e.depth_cm, e.height_cm, e.priority, e.item_id⟩
    match find_rearrangement_path cont st item_dim none with
    | none => none
    | some moves =>
      if moves = [] then rearrangeLoop cont st rest
      else
        let st' := { st with
          current_placements := moves.foldl
            (fun cp mv =>
              if mv.type = MoveType.final then dictInsert cp mv.item_id mv.toPos
              else cp)
            st.current_placements }
        some (st', moves, true)

/-- Method `rearrange_for_new_item`: gather the placed items that have an
`items_dict` record, sort them ascending by priority, and only if no target
position is found run the rearrangement loop (whose every path-finding call
passes the `None` target). -/
noncomputable def rearrange_for_new_item (cont : ContainerDims) (st : CPState)
    (new_item : ItemDimensions) : Option (CPState × List MoveRecord × Bool) :=
  let existing_items := st.current_placements.filterMap
    (fun p => (dictGet st.items_dict p.1).map
      (fun d => (⟨p.1, p.2, d.priority, d.width_cm, d.depth_cm,
        d.height_cm⟩ : ExistingItem)))
  let existing_sorted := List.insertionSort byPriority existing_items
  match find_best_position cont st.space_matrix new_item with
  | some _ => some (st, [], false)
  | none => rearrangeLoop cont st existing_sorted

/-- The placement dict built for a chosen position, rotated item and rotation
tag. -/
def mkPlacement (item_id : ℤ) (pos : Position3D) (rotated_item : ItemDimensions)
    (rotation : Rotation) : PlacementOut :=
  { item_id := item_id
    startCoordinates := ⟨(pos.x : ℚ), (pos.y : ℚ), (pos.z : ℚ)⟩
    endCoordinates := ⟨(pos.x : ℚ) + rotated_item.width_cm,
      (pos.y : ℚ) + rotated_item.depth_cm,
      (pos.z : ℚ) + rotated_item.height_cm⟩
    rotation := rotation }

/-- The first-pass rotation loop of `find_optimal_placement`: place at the
best position of the first rotation that has one and passes
`_can_place_item`, else fall through to the next rotation. -/
noncomputable def tryRotationsPass1 (cont : ContainerDims) (st : CPState)
    (item_id : ℤ) :
    List (ItemDimensions × Rotation) → CPState × Option PlacementOut
  | [] => (st, none)
  | (rotated_item, rotation) :: rest =>
    match find_best_position cont st.space_matrix rotated_item with
    | some best_pos =>
      if can_place_item cont st.space_matrix best_pos rotated_item then
        ({ st with
            space_matrix := place_item st.space_matrix best_pos rotated_item
            current_placements := dictInsert st.current_placements item_id
              best_pos },
          some (mkPlacement item_id best_pos rotated_item rotation))
      else tryRotationsPass1 cont st item_id rest
    | none => tryRotationsPass1 cont st item_id rest

/-- The matrix bookkeeping of the second pass after a successful
rearrangement: for every final move, clear the old box and occupy the new
one, both sized by the (new) rotated item's truncated dimensions, exactly as
the source does. -/
def applyMatrixUpdates (st : CPState) (rotated_item : ItemDimensions)
    (moves : List MoveRecord) : CPState :=
  { st with
    space_matrix := moves.foldl
      (fun m mv =>
        if mv.type = MoveType.final then
          (m.clear mv.fromPos.x mv.fromPos.y mv.fromPos.z
              (mv.fromPos.x + ratTrunc rotated_item.width_cm)
              (mv.fromPos.y + ratTrunc rotated_item.depth_cm)
              (mv.fromPos.z + ratTrunc rotated_item.height_cm)).occupy
            mv.toPos.x mv.toPos.y mv.toPos.z
            (mv.toPos.x + ratTrunc rotated_item.width_cm)
            (mv.toPos.y + ratTrunc rotated_item.depth_cm)
            (mv.toPos.z + ratTrunc rotated_item.height_cm)
        else m)
      st.space_matrix }

/-- The second-pass rotation loop of `find_optimal_placement`: for the first
rotation with a best position, attempt rearrangement when the position is
not directly placeable (collecting the moves only on success), then place
the item there unconditionally. -/
noncomputable def tryRotationsPass2 (cont : ContainerDims) (st : CPState)
    (item_id : ℤ) :
    List (ItemDimensions × Rotation) →
      Option (CPState × List MoveRecord × Option PlacementOut)
  | [] => some (st, [], none)
  | (rotated_item, rotation) :: rest =>
    match find_best_position cont st.space_matrix rotated_item with
    | none => tryRotationsPass2 cont st item_id rest
    | some best_pos =>
      (if can_place_item cont st.space_matrix best_pos rotated_item then
          some (st, [])
        else
          (rearrange_for_new_item cont st rotated_item).map
            (fun r =>
              if r.2.2 then (applyMatrixUpdates r.1 rotated_item r.2.1, r.2.1)
              else (r.1, []))).map
        (fun r =>
          ({ r.1 with
              space_matrix := place_item r.1.space_matrix best_pos rotated_item
              current_placements := dictInsert r.1.current_placements item_id
                best_pos },
            r.2,
            some (mkPlacement item_id best_pos rotated_item rotation)))

/-- The descending (priority, volume) sort key of `find_optimal_placement`:
ascending lexicographic order on `(-priority, -(width * depth * height))`. -/
def sortKeyLe (a b : ItemDimensions) : Prop :=
  -a.priority < -b.priority ∨
    (-a.priority = -b.priority ∧
      -(a.width_cm * a.depth_cm * a.height_cm)
        ≤ -(b.width_cm * b.depth_cm * b.height_cm))

instance : DecidableRel sortKeyLe := fun a b => by
  unfold sortKeyLe
  infer_instance

instance : IsTotal ItemDimensions sortKeyLe := by
  constructor
  intro a b
  unfold sortKeyLe
  rcases lt_trichotomy (-a.priority) (-b.priority) with h | h | h
  · exact Or.inl (Or.inl h)
  · rcases le_total (-(a.width_cm * a.depth_cm * a.height_cm))
      (-(b.width_cm * b.depth_cm * b.height_cm)) with h2 | h2
    · exact Or.inl (Or.inr ⟨h, h2⟩)
    · exact Or.inr (Or.inr ⟨h.symm, h2⟩)
  · exact Or.inr (Or.inl h)

instance : IsTrans ItemDimensions sortKeyLe := by
  constructor
  intro a b c hab hbc
  unfold sortKeyLe at hab hbc ⊢
  rcases hab with h1 | ⟨h1, h1'⟩ <;> rcases hbc with h2 | ⟨h2, h2'⟩
  · exact Or.inl (h1.trans h2)
  · exact Or.inl (h2 ▸ h1)
  · exact Or.inl (h1 ▸ h2)
  · exact Or.inr ⟨h1.trans h2, h1'.trans h2'⟩

/-- The first pass of `find_optimal_placement` over the sorted items. -/
noncomputable def pass1 (cont : ContainerDims)
    (items : List ItemDimensions) (st : CPState)
    (placements : List PlacementOut) : CPState × List PlacementOut :=
  match items with
  | [] => (st, placements)
  | item :: rest =>
    let rotations := get_90degree_rotations cont item
    match tryRotationsPass1 cont st item.item_id rotations with
    | (st', some pl) => pass1 cont rest st' (placements ++ [pl])
    | (st', none) => pass1 cont rest st' placements

/-- The second pass of `find_optimal_placement` over the sorted items,
skipping the ones already placed. -/
noncomputable def pass2 (cont : ContainerDims) :
    List ItemDimensions → CPState → List PlacementOut → List MoveRecord →
      Option (CPState × List PlacementOut × List MoveRecord)
  | [], st, placements, rearrangements => some (st, placements, rearrangements)
  | item :: rest, st, placements, rearrangements =>
    if placements.any (fun p => p.item_id = item.item_id) then
      pass2 cont rest st placements rearrangements
    else
      let rotations := get_90degree_rotations cont item
      match tryRotationsPass2 cont st item.item_id rotations with
      | none => none
      | some (st', moves, pl) =>
        pass2 cont rest st' (placements ++ pl.toList) (rearrangements ++ moves)

/-- Method `find_optimal_placement`: empty input returns empty results with
the state untouched; otherwise record the items in `items_dict`, sort by
descending (priority, volume), run the direct-placement pass and then the
rearrangement pass.  `none` is a raised exception (which the body cannot in
fact produce, see `C8_total_and_ids`). -/
noncomputable def find_optimal_placement (cont : ContainerDims) (st0 : CPState)
    (items : List ItemDimensions) :
    Option (CPState × List PlacementOut × List MoveRecord) :=
  if items = [] then some (st0, [], [])
  else
    let st1 := { st0 with
      items_dict := items.foldl (fun d it => dictInsert d it.item_id it)
        st0.items_dict }
    let sorted_items := List.insertionSort sortKeyLe items
    let res1 := pass1 cont sorted_items st1 []
    pass2 cont sorted_items res1.1 res1.2 []

/-- The open-interval box intersection test of the claims (two boxes overlap
iff on every axis each one's start is strictly below the other's end),
applied to the recorded coordinates of two placements. -/
def boxesOverlap (p q : PlacementOut) : Prop :=
  p.startCoordinates.width_cm < q.endCoordinates.width_cm ∧
    q.startCoordinates.width_cm < p.endCoordinates.width_cm ∧
    p.startCoordinates.depth_cm < q.endCoordinates.depth_cm ∧
    q.startCoordinates.depth_cm < p.endCoordinates.depth_cm ∧
    p.startCoordinates.height_cm < q.endCoordinates.height_cm ∧
    q.startCoordinates.height_cm < p.endCoordinates.height_cm

instance (p q : PlacementOut) : Decidable (boxesOverlap p q) := by
  unfold boxesOverlap
  infer_instance

/-- The no-overlap invariant of claim C1 over a placements list. -/
def noOverlapInvariant (placements : List PlacementOut) : Prop :=
  ∀ p ∈ placements, ∀ q ∈ placements, p ≠ q → ¬boxesOverlap p q

instance (placements : List PlacementOut) :
    Decidable (noOverlapInvariant placements) := by
  unfold noOverlapInvariant
  infer_instance

/-- The permutation applied to a (width, depth, height) triple by each
rotation tag: X swaps depth and height, Y swaps width and height, Z swaps
width and depth.  Each is an involution, hence its own inverse. -/
def rotApply (r : Rotation) (t : ℚ × ℚ × ℚ) : ℚ × ℚ × ℚ :=
  match r with
  | Rotation.NO_ROTATION => t
  | Rotation.ROTATE_X => (t.1, t.2.2, t.2.1)
  | Rotation.ROTATE_Y => (t.2.2, t.2.1, t.1)
  | Rotation.ROTATE_Z => (t.2.1, t.1, t.2.2)

/-- The (width, depth, height) triple of an item. -/
def dimsTriple (it : ItemDimensions) : ℚ × ℚ × ℚ :=
  (it.width_cm, it.depth_cm, it.height_cm)

/-- The concrete failing input shared by the analyses of C1 and C8: a
5x5x5 container. -/
def cexContainer : ContainerDims := ⟨5, 5, 5⟩

/-- A 5x5x5 item of priority 2 with id 1: it exactly fills `cexContainer`. -/
def cexItemA : ItemDimensions := ⟨5, 5, 5, 2, 1⟩

/-- A second 5x5x5 item, of priority 1 with id 2: once `cexItemA` is placed
there is no room left for it and no rearrangement can help. -/
def cexItemB : ItemDimensions := ⟨5, 5, 5, 1, 2⟩

/-- The placement the run records for `cexItemA`. -/
def cexPlA : PlacementOut := ⟨1, ⟨0, 0, 0⟩, ⟨5, 5, 5⟩, Rotation.NO_ROTATION⟩

/-- The placement the run records for `cexItemB`: the same box as
`cexItemA`'s. -/
def cexPlB : PlacementOut := ⟨2, ⟨0, 0, 0⟩, ⟨5, 5, 5⟩, Rotation.NO_ROTATION⟩

/-- The run state after the two items are recorded in `items_dict`. -/
def cexSt1 : CPState :=
  ⟨SparseMatrix.init 5 5 5, [], [(1, cexItemA), (2, cexItemB)]⟩

/-- The run state after pass 1 places `cexItemA` at the origin. -/
def cexStA : CPState :=
  ⟨place_item (SparseMatrix.init 5 5 5) ⟨0, 0, 0⟩ cexItemA,
    [(1, ⟨0, 0, 0⟩)], [(1, cexItemA), (2, cexItemB)]⟩

/-- The run state after pass 2 places `cexItemB` on top of `cexItemA`. -/
def cexStB : CPState :=
  ⟨place_item (place_item (SparseMatrix.init 5 5 5) ⟨0, 0, 0⟩ cexItemA)
      ⟨0, 0, 0⟩ cexItemB,
    [(1, ⟨0, 0, 0⟩), (2, ⟨0, 0, 0⟩)], [(1, cexItemA), (2, cexItemB)]⟩

/-! ### Priority A* retrieval (src/space_cargo_management/algos/retrieve_algo.py)

`PriorityAStarRetrieval.find_retrieval_path` mutates `RetrievalNode` objects
in place (the `elif` branch updates `g_cost`, `f_cost` and `parent` of the
node stored in `nodes`) and pushes the same object into the `heapq` queue
again, so queue entries alias the `nodes` map.  The embedding models the
object graph explicitly: `store` is the list of all allocated nodes in
allocation order, a node reference is an index into `store`, and the CPython
`heapq` routines are transcribed one operation at a time over a list of
references.  The node comparison used by the heap is a parameter `cmp` of the
helper functions; the program instantiates it with `nodeLt`, the literal
`RetrievalNode.__lt__`. -/

/-- An integer grid coordinate triple `(x, y, z)`. -/
abbrev GridPos := ℤ × ℤ × ℤ

/-- Dataclass `RetrievalNode`.  `parent` is an object reference, modelled as
an index into the allocation store. -/
structure RetrievalNode where
  position : GridPos
  g_cost : ℤ
  h_cost : ℤ
  f_cost : ℤ
  parent : Option ℕ
  priority_bonus : ℚ
deriving DecidableEq

instance : Inhabited RetrievalNode :=
  ⟨⟨(0, 0, 0), 0, 0, 0, none, 0⟩⟩

/-- `RetrievalNode.__lt__`:
`(self.f_cost - self.priority_bonus) < (other.f_cost - other.priority_bonus)`. -/
def nodeLt (a b : RetrievalNode) : Bool :=
  decide ((a.f_cost : ℚ) - a.priority_bonus
    < (b.f_cost : ℚ) - b.priority_bonus)

/-- The same ordering computed without rational arithmetic.  When every node
carries one and the same `priority_bonus` the two orderings agree
(`nodeLt_eq_nodeLtZ` below), which lets concrete runs of the search be
evaluated by `decide`. -/
def nodeLtZ (a b : RetrievalNode) : Bool :=
  decide (a.f_cost < b.f_cost)

/-- Comparison of two node references against a fixed allocation store.  The
store does not change during a single `heappush` or `heappop` call, so the
heap routines may capture it. -/
def storeLtWith (cmp : RetrievalNode → RetrievalNode → Bool)
    (store : List RetrievalNode) (i j : ℕ) : Bool :=
  cmp (store.getD i default) (store.getD j default)

/-- The loop of CPython `heapq._siftdown`: bubble `newitem` up from `pos`
toward `startpos`, moving larger parents down.  `pos` strictly decreases, so
`fuel = pos` iterations always suffice; the fuel branch is unreachable. -/
def siftdownLoop (lt : ℕ → ℕ → Bool) (newitem startpos : ℕ) :
    ℕ → List ℕ → ℕ → List ℕ
  | 0, heap, pos => heap.set pos newitem
  | fuel + 1, heap, pos =>
    if startpos < pos then
      let parentpos := (pos - 1) / 2
      let parent := heap.getD parentpos 0
      if lt newitem parent then
        siftdownLoop lt newitem startpos fuel (heap.set pos parent) parentpos
      else heap.set pos newitem
    else heap.set pos newitem

/-- CPython `heapq._siftdown(heap, startpos, pos)`. -/
def siftdown (lt : ℕ → ℕ → Bool) (heap : List ℕ) (startpos pos : ℕ) :
    List ℕ :=
  siftdownLoop lt (heap.getD pos 0) startpos pos heap pos

/-- The loop of CPython `heapq._siftup`: move the smaller child up into the
vacant slot, descending until a leaf; returns the final heap and the final
vacant position.  The child position at least doubles each iteration, so
`fuel = heap.length` iterations always suffice. -/
def siftupLoop (lt : ℕ → ℕ → Bool) (endpos : ℕ) :
    ℕ → List ℕ → ℕ → List ℕ × ℕ
  | 0, heap, pos => (heap, pos)
  | fuel + 1, heap, pos =>
    let childpos := 2 * pos + 1
    if childpos < endpos then
      let rightpos := childpos + 1
      let childpos :=
        if rightpos < endpos
            ∧ lt (heap.getD childpos 0) (heap.getD rightpos 0) = false
        then rightpos else childpos
      siftupLoop lt endpos fuel (heap.set pos (heap.getD childpos 0)) childpos
    else (heap, pos)

/-- CPython `heapq._siftup(heap, pos)`: descend with the min-child chain,
then place the saved `newitem` and bubble it up. -/
def siftup (lt : ℕ → ℕ → Bool) (heap : List ℕ) (pos : ℕ) : List ℕ :=
  let newitem := heap.getD pos 0
  let moved := siftupLoop lt heap.length heap.length heap pos
  siftdown lt (moved.1.set moved.2 newitem) pos moved.2

/-- CPython `heapq.heappush`: append, then sift the new leaf down toward the
root. -/
def heappush (lt : ℕ → ℕ → Bool) (heap : List ℕ) (item : ℕ) : List ℕ :=
  siftdown lt (heap ++ [item]) 0 heap.length

/-- CPython `heapq.heappop`: remove the last element; if the heap is still
nonempty, return the root, move the last element to the root and sift up.
`none` is the `IndexError` on an empty heap, which the search never triggers
because the loop guard tests emptiness first. -/
def heappop (lt : ℕ → ℕ → Bool) (heap : List ℕ) : Option (ℕ × List ℕ) :=
  match heap.getLast? with
  | none => none
  | some lastelt =>
    match heap.dropLast with
    | [] => some (lastelt, [])
    | x :: rest => some (x, siftup lt (lastelt :: rest) 0)

/-- The retrieval environment: the fields of `PriorityAStarRetrieval` that
`find_retrieval_path` reads.  `items_data` maps an item id to its inventory
record, feeding `calculate_priority_score`; the mutable `priority_queue` and
`visited` attributes of the class are never read by the search and are
omitted. -/
structure PriorityAStarRetrieval where
  width : ℤ
  depth : ℤ
  height : ℤ
  occupied_spaces : List GridPos
  items_data : List (ℤ × RetrieveItemRecord)

/-- `manhattan_distance`. -/
def manhattan_distance (pos1 pos2 : GridPos) : ℤ :=
  |pos1.1 - pos2.1| + |pos1.2.1 - pos2.2.1| + |pos1.2.2 - pos2.2.2|

/-- The pre-computed `self.directions` list. -/
def directions : List GridPos :=
  [(0, 0, 1), (0, 0, -1), (0, 1, 0), (0, -1, 0), (1, 0, 0), (-1, 0, 0)]

/-- `get_neighbors`: the six axis neighbours that are strictly inside the
container bounds and not occupied, in direction order. -/
def get_neighbors (e : PriorityAStarRetrieval) (pos : GridPos) :
    List GridPos :=
  directions.flatMap (fun d =>
    let new_pos : GridPos :=
      (pos.1 + d.1, pos.2.1 + d.2.1, pos.2.2 + d.2.2)
    if (0 ≤ new_pos.1 ∧ new_pos.1 < e.width
          ∧ 0 ≤ new_pos.2.1 ∧ new_pos.2.1 < e.depth
          ∧ 0 ≤ new_pos.2.2 ∧ new_pos.2.2 < e.height)
        ∧ new_pos ∉ e.occupied_spaces
    then [new_pos] else [])

/-- `is_valid_position`: inclusive bounds check (note `≤ width`, unlike the
strict bound of `get_neighbors`), then occupancy.  The `int()` conversions of
the source are the identity here because positions are integer grid cells. -/
def is_valid_position (e : PriorityAStarRetrieval) (pos : GridPos) : Bool :=
  decide ((0 ≤ pos.1 ∧ pos.1 ≤ e.width
      ∧ 0 ≤ pos.2.1 ∧ pos.2.1 ≤ e.depth
      ∧ 0 ≤ pos.2.2 ∧ pos.2.2 ≤ e.height)
    ∧ pos ∉ e.occupied_spaces)

/-- The search state of `find_retrieval_path`: the allocation store of all
`RetrievalNode` objects, the `nodes` dictionary mapping a position to the
reference of its unique node object, the heap of references, and the two
position sets. -/
structure AStarState where
  store : List RetrievalNode
  nodesDict : List (GridPos × ℕ)
  open_pq : List ℕ
  open_set : List GridPos
  closed_set : List GridPos

/-- The body of the `for neighbor_pos in self.get_neighbors(...)` loop.
`currentId` is the reference to the node being expanded; its fields are read
back from the store at use time, as attribute access on the object does. -/
def processNeighbor (cmp : RetrievalNode → RetrievalNode → Bool)
    (target_pos : GridPos) (bonus : ℚ)
    (currentId : ℕ) (st : AStarState) (neighbor_pos : GridPos) : AStarState :=
  if neighbor_pos ∈ st.closed_set then st
  else
    let current := st.store.getD currentId default
    let g_cost := current.g_cost + 1
    if neighbor_pos ∉ st.open_set then
      let h_cost := manhattan_distance neighbor_pos target_pos
      let f_cost := g_cost + h_cost
      let neighbor : RetrievalNode :=
        ⟨neighbor_pos, g_cost, h_cost, f_cost, some currentId, bonus⟩
      let nid := st.store.length
      let store' := st.store ++ [neighbor]
      { store := store'
        nodesDict := dictInsert st.nodesDict neighbor_pos nid
        open_pq := heappush (storeLtWith cmp store') st.open_pq nid
        open_set := neighbor_pos :: st.open_set
        closed_set := st.closed_set }
    else
      match dictGet st.nodesDict neighbor_pos with
      | none => st
      | some nid =>
        let old := st.store.getD nid default
        if g_cost < old.g_cost then
          let upd : RetrievalNode :=
            { old with
                g_cost := g_cost
                f_cost := g_cost + old.h_cost
                parent := some currentId }
          let store' := st.store.set nid upd
          { store := store'
            nodesDict := st.nodesDict
            open_pq := heappush (storeLtWith cmp store') st.open_pq nid
            open_set := st.open_set
            closed_set := st.closed_set }
        else st

/-- The `while open_pq:` loop of `find_retrieval_path`.  Returns the
reference of the node whose position reached the target together with the
final state, or `none` when the queue empties.  The first inner test is the
stale-entry check
`current.f_cost - current.priority_bonus >
 nodes[current_pos].f_cost - nodes[current_pos].priority_bonus`,
which is `cmp` applied to `nodes[current_pos]` and `current` in that order.
The `dictGet` fallback branch is the `KeyError` that Python would raise if a
queued position were missing from `nodes`; the search never creates such a
state.  The guarded `open_set.remove` is `List.erase` (erasing a missing
element is the identity). -/
def astarLoop (cmp : RetrievalNode → RetrievalNode → Bool)
    (e : PriorityAStarRetrieval) (target_pos : GridPos) (bonus : ℚ) :
    ℕ → AStarState → Option (ℕ × AStarState)
  | 0, _ => none
  | fuel + 1, st =>
    match heappop (storeLtWith cmp st.store) st.open_pq with
    | none => none
    | some (currentId, pq1) =>
      let st1 : AStarState := { st with open_pq := pq1 }
      let current := st1.store.getD currentId default
      let current_pos := current.position
      match dictGet st1.nodesDict current_pos with
      | none => none
      | some bestId =>
        if cmp (st1.store.getD bestId default) current then
          astarLoop cmp e target_pos bonus fuel st1
        else if current_pos = target_pos then some (currentId, st1)
        else
          let st2 : AStarState :=
            { st1 with
                open_set := st1.open_set.erase current_pos
                closed_set := current_pos :: st1.closed_set }
          astarLoop cmp e target_pos bonus fuel
            ((get_neighbors e current_pos).foldl
              (processNeighbor cmp target_pos bonus currentId) st2)

/-- A step dict `{"from", "to", "itemId", "priority"}` of the reconstructed
path. -/
structure PathStep where
  fromPos : GridPos
  toPos : GridPos
  itemId : ℤ
  priority : ℚ
deriving DecidableEq

/-- Dataclass `RetrievalPath`. -/
structure RetrievalPath where
  steps : List PathStep
  total_cost : ℤ
  priority_score : ℚ
  safety_score : ℚ

/-- The `while current.parent:` walk of `reconstruct_path`, collecting one
step per parent link, deepest node first.  The source relies on parent
chains being finite; on every node the search actually produces, the chain
has exactly `g_cost` links (theorem `buildStepsAux_length`), so the walk is
given `g_cost.toNat` fuel. -/
def buildStepsAux (store : List RetrievalNode) (itemId : ℤ) (prio : ℚ) :
    ℕ → RetrievalNode → List PathStep
  | 0, _ => []
  | fuel + 1, cur =>
    match cur.parent with
    | none => []
    | some p =>
      let par := store.getD p default
      ⟨par.position, cur.position, itemId, prio⟩
        :: buildStepsAux store itemId prio fuel par

/-- The number of steps whose `from` and `to` differ in the z coordinate:
`sum(1 for step in path if step["from"][2] != step["to"][2])`. -/
def verticalMoves (steps : List PathStep) : ℕ :=
  (steps.filter (fun s => decide (s.fromPos.2.2 ≠ s.toPos.2.2))).length

/-- `reconstruct_path`. -/
def reconstruct_path (e : PriorityAStarRetrieval)
    (store : List RetrievalNode) (final_node : RetrievalNode)
    (itemId : ℤ) : RetrievalPath :=
  let prio := calculate_priority_score (dictGet e.items_data itemId)
  let path :=
    (buildStepsAux store itemId prio final_node.g_cost.toNat
      final_node).reverse
  let vertical_movements := verticalMoves path
  let path_length := path.length
  let safety_score : ℚ :=
    if path_length = 0 then 1
    else 1 - (vertical_movements : ℚ) / ((path_length : ℚ) * 2)
  { steps := path
    total_cost := final_node.g_cost
    priority_score := final_node.priority_bonus
    safety_score := max (1 / 10) (min 1 safety_score) }

/-- Fuel for the search loop; any generous bound will do, because every
theorem about the search either evaluates a concrete run far shorter than
the fuel or is conditional on the search having returned a result. -/
def astarFuel (e : PriorityAStarRetrieval) : ℕ :=
  8 * (e.width.toNat + 2) * (e.depth.toNat + 2) * (e.height.toNat + 2)

/-- `find_retrieval_path`, parameterised by the heap comparison.  Start and
target are integer grid cells, so the `int()` conversions are the identity
and `start_pos_int = start_pos`.  The `(0, 0, 0)` special case discards the
start cell from the occupied set (`set.discard`, a no-op when absent);
the target tolerance accepts a target up to 5 units beyond each inclusive
bound.  `none` is the `return None` of the source. -/
def searchWith (cmp : RetrievalNode → RetrievalNode → Bool)
    (e : PriorityAStarRetrieval) (start_pos target_pos : GridPos)
    (itemId : ℤ) : Option RetrievalPath :=
  let envOpt : Option PriorityAStarRetrieval :=
    if is_valid_position e start_pos then some e
    else if start_pos = ((0 : ℤ), (0 : ℤ), (0 : ℤ)) then
      some { e with
        occupied_spaces :=
          e.occupied_spaces.filter (fun p => decide (p ≠ start_pos)) }
    else none
  match envOpt with
  | none => none
  | some env =>
    if is_valid_position env target_pos = false
        ∧ ¬(0 ≤ target_pos.1 ∧ target_pos.1 ≤ env.width + 5
            ∧ 0 ≤ target_pos.2.1 ∧ target_pos.2.1 ≤ env.depth + 5
            ∧ 0 ≤ target_pos.2.2 ∧ target_pos.2.2 ≤ env.height + 5)
    then none
    else
      let priority_bonus :=
        calculate_priority_score (dictGet env.items_data itemId)
      let h_cost := manhattan_distance start_pos target_pos
      let start_node : RetrievalNode :=
        ⟨start_pos, 0, h_cost, h_cost, none, priority_bonus⟩
      let st0 : AStarState :=
        { store := [start_node]
          nodesDict := [(start_pos, 0)]
          open_pq := heappush (storeLtWith cmp [start_node]) [] 0
          open_set := [start_pos]
          closed_set := [] }
      match astarLoop cmp env target_pos priority_bonus (astarFuel env)
          st0 with
      | some (finalId, stF) =>
        some (reconstruct_path env stF.store
          (stF.store.getD finalId default) itemId)
      | none => none

/-- `PriorityAStarRetrieval.find_retrieval_path`: the search with the heap
ordered by `RetrievalNode.__lt__`. -/
def find_retrieval_path (e : PriorityAStarRetrieval)
    (start_pos target_pos : GridPos) (itemId : ℤ) : Option RetrievalPath :=
  searchWith nodeLt e start_pos target_pos itemId

/-- Well-formed parent chain of a node: following `parent` references visits
only nodes whose positions are closed (hence never mutated again), loses
exactly one unit of `g_cost` per link, and ends after exactly `fuel` links at
a parentless node of `g_cost` zero.  The search maintains this for every
stored node with `fuel = g_cost.toNat`. -/
def wfChain (store : List RetrievalNode) (closed : List GridPos) :
    ℕ → RetrievalNode → Prop
  | 0, n => n.parent = none ∧ n.g_cost = 0
  | fuel + 1, n =>
    (n.parent = none ∧ n.g_cost = 0) ∨
    ∃ p pn, n.parent = some p ∧ store[p]? = some pn
      ∧ pn.position ∈ closed ∧ pn.g_cost = n.g_cost - 1
      ∧ wfChain store closed fuel pn

/-- Every store node has a well-formed parent chain, every `nodes` entry
references a stored node at its own position, every queued reference is a
valid store index, and the store is nonempty.  This is the invariant of the
search loop that underlies the reconstruction postconditions. -/
structure SearchInv (st : AStarState) : Prop where
  storeWF : ∀ n ∈ st.store,
    wfChain st.store st.closed_set n.g_cost.toNat n
  dictWF : ∀ p i, dictGet st.nodesDict p = some i →
    ∃ n, st.store[i]? = some n ∧ n.position = p
  heapWF : ∀ i ∈ st.open_pq, i < st.store.length
  storeNE : 0 < st.store.length

/-- All stored nodes carry priority bonus zero; under this invariant the
rational heap ordering `nodeLt` coincides with the integral `nodeLtZ`. -/
def AllBonusZero (store : List RetrievalNode) : Prop :=
  ∀ n ∈ store, n.priority_bonus = 0

/-- A path witness for the independent-shortest-distance comparison of the
A* claim: consecutive entries are `get_neighbors` moves. -/
def freePathChain (e : PriorityAStarRetrieval) : List GridPos → Bool
  | [] => true
  | [_] => true
  | a :: b :: rest =>
    decide (b ∈ get_neighbors e a) && freePathChain e (b :: rest)

/-- The occupied cells of the concrete retrieval counterexample. -/
def c4Occupied : List GridPos :=
  [(0, 2, 0), (0, 3, 0), (0, 3, 1), (1, 0, 0), (1, 1, 1), (1, 2, 1),
    (1, 3, 1), (2, 1, 0), (2, 1, 1), (2, 3, 0), (3, 2, 1), (3, 4, 0),
    (4, 1, 1), (4, 3, 0), (4, 4, 1), (5, 2, 1), (5, 3, 0), (5, 3, 1),
    (6, 3, 0)]

/-- A 7 by 5 by 2 container with 19 occupied cells and no inventory data. -/
def c4Env : PriorityAStarRetrieval :=
  ⟨7, 5, 2, c4Occupied, []⟩

/-- Start cell of the counterexample run. -/
def c4Start : GridPos := (0, 4, 0)

/-- Target cell of the counterexample run. -/
def c4Target : GridPos := (6, 3, 1)

/-- A ten-step free path from the start to the target of the counterexample,
found by breadth-first search. -/
def c4ShortPath : List GridPos :=
  [(0, 4, 0), (1, 4, 0), (1, 3, 0), (1, 2, 0), (2, 2, 0), (3, 2, 0),
    (4, 2, 0), (5, 2, 0), (6, 2, 0), (6, 2, 1), (6, 3, 1)]

/-- A one-cell environment for exercising the trivial search run. -/
def trivEnv : PriorityAStarRetrieval :=
  ⟨1, 1, 1, [], []⟩

/-- The path returned by the trivial run from the origin to itself. -/
def trivPath : RetrievalPath :=
  ⟨[], 0, 0, 1⟩

/-! ### Theorems -/

theorem mem_intRange {a b k : ℤ} : k ∈ intRange a b ↔ a ≤ k ∧ k ≤ b := by
  unfold intRange
  simp only [List.mem_map, List.mem_range, Int.ofNat_eq_coe]
  constructor
  · rintro ⟨n, hn, rfl⟩
    omega
  · rintro ⟨h1, h2⟩
    exact ⟨(k - a).toNat, by omega, by omega⟩

theorem intRange_self (a : ℤ) : intRange a a = [a] := by
  unfold intRange
  rw [show (a + 1 - a).toNat = 1 by omega, show List.range 1 = [0] from rfl]
  simp

theorem intRange_nodup (a b : ℤ) : (intRange a b).Nodup := by
  unfold intRange
  refine List.Nodup.map ?_ (List.nodup_range _)
  intro x y h
  simp only [Int.ofNat_eq_coe, add_right_inj, Int.natCast_inj] at h
  exact h

namespace SparseMatrix

/-- The fold inside `occupy` adds exactly the (cell, region) pairs for the
processed cells and marks those cells occupied. -/
theorem occupy_foldl_spec (R : Region) :
    ∀ (cs : List Cell) (m : SparseMatrix),
      cs.foldl
        (fun acc c =>
          { acc with
            grid := insert (c, (R.1, R.2.1, R.2.2.1, R.2.2.2.1, R.2.2.2.2.1,
              R.2.2.2.2.2)) acc.grid
            occupied_cells := insert c acc.occupied_cells })
        m
      = { m with
          grid := m.grid ∪ (cs.map (fun c => (c, R))).toFinset
          occupied_cells := m.occupied_cells ∪ cs.toFinset } := by
  intro cs
  induction cs with
  | nil =>
    intro m
    simp
  | cons c t ih =>
    intro m
    simp only [List.foldl_cons, ih, List.map_cons, List.toFinset_cons]
    have h1 : insert (c, (R.1, R.2.1, R.2.2.1, R.2.2.2.1, R.2.2.2.2.1,
        R.2.2.2.2.2)) m.grid ∪ (t.map (fun c => (c, R))).toFinset
        = m.grid ∪ insert (c, R) (t.map (fun c => (c, R))).toFinset := by
      rw [Finset.insert_union, Finset.union_insert]
    have h2 : insert c m.occupied_cells ∪ t.toFinset
        = m.occupied_cells ∪ insert c t.toFinset := by
      rw [Finset.insert_union, Finset.union_insert]
    rw [h1, h2]

theorem occupy_spec (m : SparseMatrix) (xs ys zs xe ye ze : ℤ) :
    m.occupy xs ys zs xe ye ze
      = { m with
          grid := m.grid ∪
            ((m.cellsSpanned xs ys zs xe ye ze).map
              (fun c => (c, (xs, ys, zs, xe, ye, ze)))).toFinset
          occupied_cells := m.occupied_cells ∪
            (m.cellsSpanned xs ys zs xe ye ze).toFinset } :=
  occupy_foldl_spec (xs, ys, zs, xe, ye, ze) (m.cellsSpanned xs ys zs xe ye ze) m

theorem cellsSpanned_nodup (m : SparseMatrix) (xs ys zs xe ye ze : ℤ) :
    (m.cellsSpanned xs ys zs xe ye ze).Nodup := by
  unfold cellsSpanned
  refine List.nodup_flatMap.mpr ⟨?_, ?_⟩
  · intro cx _
    refine List.nodup_flatMap.mpr ⟨?_, ?_⟩
    · intro cy _
      refine (intRange_nodup _ _).map ?_
      intro z w h
      simpa using h
    · refine (intRange_nodup _ _).pairwise_of_forall_ne ?_
      intro cy _ cy' _ hne
      simp only [Function.onFun, List.disjoint_left, List.mem_map]
      rintro c ⟨cz, _, rfl⟩ ⟨cz', _, h⟩
      have h2 := congrArg (fun q : Cell => q.2.1) h
      simp only at h2
      exact hne h2.symm
  · refine (intRange_nodup _ _).pairwise_of_forall_ne ?_
    intro cx _ cx' _ hne
    simp only [Function.onFun, List.disjoint_left, List.mem_flatMap, List.mem_map]
    rintro c ⟨cy, _, cz, _, rfl⟩ ⟨cy', _, cz', _, h⟩
    have h2 := congrArg (fun q : Cell => q.1) h
    simp only at h2
    exact hne h2.symm

theorem cellsSpanned_congr {m m' : SparseMatrix} (h : m'.grid_size = m.grid_size)
    (xs ys zs xe ye ze : ℤ) :
    m'.cellsSpanned xs ys zs xe ye ze = m.cellsSpanned xs ys zs xe ye ze := by
  unfold cellsSpanned getGridCell
  rw [h]

/-- The fold inside `clear`, run over a duplicate-free list of cells that all
carry the region being cleared and nothing else from the rest of the grid,
removes exactly those pairs and prunes the processed cells. -/
theorem clear_foldl_spec (R : Region) :
    ∀ (cs : List Cell), cs.Nodup →
      ∀ (g0 : Finset (Cell × Region)) (o0 : Finset Cell) (w d h gs : ℤ),
        (∀ p ∈ g0, p.1 ∉ cs) →
        cs.foldl (clearStep R)
            ⟨w, d, h, gs, g0 ∪ (cs.map (fun c => (c, R))).toFinset, o0⟩
          = ⟨w, d, h, gs, g0, o0 \ cs.toFinset⟩ := by
  intro cs
  induction cs with
  | nil =>
    intro _ g0 o0 w d h gs _
    simp
  | cons c t ih =>
    intro hnd g0 o0 w d h gs hg0
    have hct : c ∉ t := (List.nodup_cons.mp hnd).1
    have hcR_g0 : (c, R) ∉ g0 := fun hmem => (hg0 _ hmem) (by simp)
    have hcR_t : (c, R) ∉ (t.map (fun c => (c, R))).toFinset := by
      simp only [List.mem_toFinset, List.mem_map]
      rintro ⟨c', hc', hh⟩
      have : c' = c := congrArg Prod.fst hh
      exact hct (this ▸ hc')
    have hgrid :
        ((g0 ∪ (List.map (fun c => (c, R)) (c :: t)).toFinset).erase (c, R))
          = g0 ∪ (t.map (fun c => (c, R))).toFinset := by
      simp only [List.map_cons, List.toFinset_cons, Finset.union_insert]
      rw [Finset.erase_insert]
      simp only [Finset.mem_union]
      tauto
    have hfilter :
        ((g0 ∪ (t.map (fun c => (c, R))).toFinset).filter
          (fun p : Cell × Region => p.1 = c)) = ∅ := by
      apply Finset.filter_eq_empty_iff.mpr
      intro p hp
      rcases Finset.mem_union.mp hp with hp0 | hpt
      · exact fun hc => (hg0 _ hp0) (hc ▸ List.mem_cons_self c t)
      · simp only [List.mem_toFinset, List.mem_map] at hpt
        rcases hpt with ⟨c', hc', rfl⟩
        exact fun hc => hct (hc ▸ hc')
    have hstep :
        clearStep R ⟨w, d, h, gs,
            g0 ∪ (List.map (fun c => (c, R)) (c :: t)).toFinset, o0⟩ c
          = ⟨w, d, h, gs, g0 ∪ (t.map (fun c => (c, R))).toFinset,
              o0.erase c⟩ := by
      unfold clearStep
      simp only [hgrid, hfilter]
      simp
    have ht : ∀ p ∈ g0, p.1 ∉ t := fun p hp hmem =>
      (hg0 p hp) (List.mem_cons_of_mem _ hmem)
    have := ih (List.nodup_cons.mp hnd).2 g0 (o0.erase c) w d h gs ht
    rw [List.foldl_cons, hstep, this]
    congr 1
    ext x
    simp only [Finset.mem_sdiff, Finset.mem_erase, List.toFinset_cons,
      Finset.mem_insert, List.mem_toFinset]
    tauto

theorem cellsSpanned_degenerate (m : SparseMatrix) (x y z : ℤ) :
    m.cellsSpanned x y z x y z = [m.getGridCell x y z] := by
  unfold cellsSpanned
  simp [intRange_self]

end SparseMatrix

/-- C5: for every non-degenerate axis-aligned region R, starting from any
index state in which no registered region shares a grid cell with R (no
registration sits in a cell R spans, and R itself is not registered),
executing `occupy(R)` then `clear(R)` yields a state in which `is_occupied(R)`
returns false and `get_occupied_regions()` does not contain R. -/
theorem C5_occupy_clear_roundtrip (m : SparseMatrix) (xs ys zs xe ye ze : ℤ)
    (_hnd : xs < xe ∧ ys < ye ∧ zs < ze)
    (hfree : ∀ p ∈ m.grid,
      p.1 ∉ m.cellsSpanned xs ys zs xe ye ze ∧
        p.2 ≠ (xs, ys, zs, xe, ye, ze)) :
    ((m.occupy xs ys zs xe ye ze).clear xs ys zs xe ye ze).is_occupied
        xs ys zs xe ye ze = false ∧
      (xs, ys, zs, xe, ye, ze) ∉
        ((m.occupy xs ys zs xe ye ze).clear xs ys zs xe ye ze).get_occupied_regions := by
  obtain ⟨w, d, h, gs, g, o⟩ := m
  set m0 : SparseMatrix := ⟨w, d, h, gs, g, o⟩ with hm0
  set span := m0.cellsSpanned xs ys zs xe ye ze with hspan
  have hocc := m0.occupy_spec xs ys zs xe ye ze
  have hgs1 : (m0.occupy xs ys zs xe ye ze).grid_size = m0.grid_size := by
    rw [hocc]
  have hspan1 :
      (m0.occupy xs ys zs xe ye ze).cellsSpanned xs ys zs xe ye ze = span := by
    rw [SparseMatrix.cellsSpanned_congr hgs1]
  have hclear :
      (m0.occupy xs ys zs xe ye ze).clear xs ys zs xe ye ze
        = ⟨w, d, h, gs, g, (o ∪ span.toFinset) \ span.toFinset⟩ := by
    unfold SparseMatrix.clear
    rw [hspan1, hocc]
    exact SparseMatrix.clear_foldl_spec (xs, ys, zs, xe, ye, ze) span
      (m0.cellsSpanned_nodup xs ys zs xe ye ze) g (o ∪ span.toFinset)
      w d h gs (fun p hp => (hfree p hp).1)
  have hgs2 :
      ((m0.occupy xs ys zs xe ye ze).clear xs ys zs xe ye ze).grid_size
        = m0.grid_size := by
    rw [hclear]
  constructor
  · unfold SparseMatrix.is_occupied
    rw [SparseMatrix.cellsSpanned_congr hgs2, ← hspan]
    rw [List.any_eq_false]
    intro c hc
    rw [hclear]
    unfold SparseMatrix.cellBusy
    simp only [decide_eq_true_eq]
    rintro ⟨p, hp⟩
    have hpg : p ∈ g := (Finset.mem_filter.mp hp).1
    refine (hfree p hpg).1 ?_
    rw [(Finset.mem_filter.mp hp).2]
    exact hc
  · rw [hclear]
    unfold SparseMatrix.get_occupied_regions
    simp only [Finset.mem_image]
    rintro ⟨p, hp, hpR⟩
    exact (hfree p (Finset.mem_filter.mp hp).1).2 hpR

/-- C6 counterexample: on a fresh index, `occupy` of the zero-size region at
the point (3,4,5) does change the state, and a subsequent `is_occupied` query
on that degenerate region returns true, contradicting the claim that the
state is unchanged and the query returns false. -/
theorem C6_counterexample :
    (SparseMatrix.init 100 100 100).occupy 3 4 5 3 4 5
        ≠ SparseMatrix.init 100 100 100 ∧
      ((SparseMatrix.init 100 100 100).occupy 3 4 5 3 4 5).is_occupied
        3 4 5 3 4 5 = true := by
  decide

/-- C6 amended: for every point p and every index state, calling `occupy`
with start == end == p registers the degenerate region tuple in the single
grid cell containing p (adding it to that cell's set and marking the cell
occupied), and a subsequent `is_occupied` query on that degenerate region
returns true. -/
theorem C6_degenerate_occupy_registers (m : SparseMatrix) (x y z : ℤ) :
    (m.occupy x y z x y z).grid
        = insert (m.getGridCell x y z, (x, y, z, x, y, z)) m.grid ∧
      (m.occupy x y z x y z).occupied_cells
        = insert (m.getGridCell x y z) m.occupied_cells ∧
      (m.occupy x y z x y z).is_occupied x y z x y z = true := by
  have hocc := m.occupy_spec x y z x y z
  rw [m.cellsSpanned_degenerate x y z] at hocc
  have hgrid : (m.occupy x y z x y z).grid
      = insert (m.getGridCell x y z, (x, y, z, x, y, z)) m.grid := by
    rw [hocc]
    simp [Finset.insert_eq, Finset.union_comm]
  have hcells : (m.occupy x y z x y z).occupied_cells
      = insert (m.getGridCell x y z) m.occupied_cells := by
    rw [hocc]
    simp [Finset.insert_eq, Finset.union_comm]
  refine ⟨hgrid, hcells, ?_⟩
  have hgs : (m.occupy x y z x y z).grid_size = m.grid_size := by
    rw [hocc]
  unfold SparseMatrix.is_occupied
  rw [SparseMatrix.cellsSpanned_congr hgs, m.cellsSpanned_degenerate x y z]
  simp only [List.any_cons, List.any_nil, Bool.or_false]
  unfold SparseMatrix.cellBusy
  rw [decide_eq_true_eq]
  refine ⟨(m.getGridCell x y z, (x, y, z, x, y, z)), ?_⟩
  rw [hgrid]
  exact Finset.mem_filter.mpr ⟨Finset.mem_insert_self _ _, rfl⟩

/-- C5 witness: the round-trip theorem applied to a fresh 100x100x100 index
and the concrete region (0,0,0,5,5,5). -/
theorem C5_witness :
    ((0 : ℤ) < 5 ∧ (0 : ℤ) < 5 ∧ (0 : ℤ) < 5) ∧
      (((SparseMatrix.init 100 100 100).occupy 0 0 0 5 5 5).clear
          0 0 0 5 5 5).is_occupied 0 0 0 5 5 5 = false ∧
        ((0 : ℤ), (0 : ℤ), (0 : ℤ), (5 : ℤ), (5 : ℤ), (5 : ℤ)) ∉
          (((SparseMatrix.init 100 100 100).occupy 0 0 0 5 5 5).clear
            0 0 0 5 5 5).get_occupied_regions :=
  ⟨by norm_num,
    C5_occupy_clear_roundtrip (SparseMatrix.init 100 100 100) 0 0 0 5 5 5
      (by norm_num) (by decide)⟩


theorem numberSteps_map_item_id (a : StepAction) :
    ∀ (bs : List PlacedRecord) (n : ℕ),
      (numberSteps a bs n).map (fun s => s.item_id)
        = bs.map (fun b => b.item_id) := by
  intro bs
  induction bs with
  | nil => intro n; rfl
  | cons b t ih =>
    intro n
    simp only [numberSteps, List.map_cons, ih]

theorem numberSteps_action (a : StepAction) :
    ∀ (bs : List PlacedRecord) (n : ℕ), ∀ s ∈ numberSteps a bs n,
      s.action = a := by
  intro bs
  induction bs with
  | nil =>
    intro n s hs
    simp [numberSteps] at hs
  | cons b t ih =>
    intro n s hs
    rcases List.mem_cons.mp hs with hs | hs
    · rw [hs]
    · exact ih (n + 1) s hs

theorem numberSteps_filter_same (a : StepAction) (bs : List PlacedRecord)
    (n : ℕ) :
    (numberSteps a bs n).filter (fun s => decide (s.action = a))
      = numberSteps a bs n := by
  apply List.filter_eq_self.mpr
  intro s hs
  simp [numberSteps_action a bs n s hs]

theorem numberSteps_filter_other {a a' : StepAction} (h : a ≠ a')
    (bs : List PlacedRecord) (n : ℕ) :
    (numberSteps a bs n).filter (fun s => decide (s.action = a')) = [] := by
  apply List.filter_eq_nil_iff.mpr
  intro s hs
  simp [numberSteps_action a bs n s hs]
  exact h

/-- C2: in the retrieval-step computation, a co-located placed item b is
classified as blocking the target iff it starts at a strictly lower depth,
its width interval overlaps the target's under the open-interval rule, and
its priority is strictly greater than the target's; consequently an item
with priority at most the target's never appears in the emitted steps (given
that item ids are unambiguous), even when it is geometrically in front. -/
theorem C2_blocking_predicate (target b : PlacedRecord)
    (others : List PlacedRecord) (hb : b ∈ others) :
    (b ∈ blockingItems target others ↔
      (b.position.startCoordinates.depth_cm
          < target.position.startCoordinates.depth_cm ∧
        ¬(b.position.endCoordinates.width_cm
              ≤ target.position.startCoordinates.width_cm ∨
            b.position.startCoordinates.width_cm
              ≥ target.position.endCoordinates.width_cm) ∧
        b.priority > target.priority)) ∧
      (b.priority ≤ target.priority →
        (∀ c ∈ others, c.item_id = b.item_id → c = b) →
        b.item_id ≠ target.item_id →
        b.item_id ∉
          (calculate_retrieval_steps target others).map (fun s => s.item_id)) := by
  constructor
  · unfold blockingItems
    rw [List.mem_filter]
    unfold isBlocking
    simp [hb]
  · intro hpri huniq hneq hmem
    unfold calculate_retrieval_steps at hmem
    by_cases hbl : blockingItems target others = []
    · simp [hbl] at hmem
    · simp only [hbl, if_false, List.map_append, numberSteps_map_item_id,
        List.map_cons, List.map_nil, List.map_reverse] at hmem
      have hfromSorted :
          ∀ c ∈ List.insertionSort byDepth (blockingItems target others),
            c.item_id = b.item_id → False := by
        intro c hc hcid
        have hcbl : c ∈ blockingItems target others :=
          (List.perm_insertionSort byDepth _).mem_iff.mp hc
        have hcothers : c ∈ others := List.mem_of_mem_filter hcbl
        have hcb : c = b := huniq c hcothers hcid
        subst hcb
        have : isBlocking target c := by
          have := (List.mem_filter.mp hcbl).2
          exact of_decide_eq_true this
        exact absurd this.2.2 (not_lt.mpr hpri)
      rcases List.mem_append.mp hmem with h12 | h3
      · rcases List.mem_append.mp h12 with h1 | h2
        · obtain ⟨c, hc, hcid⟩ := List.mem_map.mp h1
          exact hfromSorted c hc hcid
        · have hbt : b.item_id = target.item_id := by
            simpa using h2
          exact hneq hbt
      · have h3' := List.mem_reverse.mp h3
        obtain ⟨c, hc, hcid⟩ := List.mem_map.mp h3'
        exact hfromSorted c hc hcid

/-- C2 witness: a target at depth 20 with a geometrically blocking neighbour
at depth 10 of lower priority; the neighbour is not classified as blocking
and appears in no step. -/
theorem C2_blocking_predicate_witness :
    ((⟨2, 102, ⟨⟨0, 10, 0⟩, ⟨10, 20, 10⟩⟩, 30⟩ : PlacedRecord)
        ∈ [(⟨2, 102, ⟨⟨0, 10, 0⟩, ⟨10, 20, 10⟩⟩, 30⟩ : PlacedRecord)]) ∧
      (((⟨2, 102, ⟨⟨0, 10, 0⟩, ⟨10, 20, 10⟩⟩, 30⟩ : PlacedRecord)
          ∈ blockingItems ⟨1, 101, ⟨⟨0, 20, 0⟩, ⟨10, 30, 10⟩⟩, 50⟩
            [⟨2, 102, ⟨⟨0, 10, 0⟩, ⟨10, 20, 10⟩⟩, 30⟩] ↔
        ((10 : ℚ) < 20 ∧ ¬((10 : ℚ) ≤ 0 ∨ (0 : ℚ) ≥ 10) ∧ (30 : ℤ) > 50)) ∧
        ((30 : ℤ) ≤ 50 →
          (∀ c ∈ [(⟨2, 102, ⟨⟨0, 10, 0⟩, ⟨10, 20, 10⟩⟩, 30⟩ : PlacedRecord)],
            c.item_id = 2 → c = ⟨2, 102, ⟨⟨0, 10, 0⟩, ⟨10, 20, 10⟩⟩, 30⟩) →
          (2 : ℤ) ≠ 1 →
          (2 : ℤ) ∉
            (calculate_retrieval_steps ⟨1, 101, ⟨⟨0, 20, 0⟩, ⟨10, 30, 10⟩⟩, 50⟩
              [⟨2, 102, ⟨⟨0, 10, 0⟩, ⟨10, 20, 10⟩⟩, 30⟩]).map
                (fun s => s.item_id))) :=
  ⟨by decide,
    C2_blocking_predicate ⟨1, 101, ⟨⟨0, 20, 0⟩, ⟨10, 30, 10⟩⟩, 50⟩
      ⟨2, 102, ⟨⟨0, 10, 0⟩, ⟨10, 20, 10⟩⟩, 30⟩
      [⟨2, 102, ⟨⟨0, 10, 0⟩, ⟨10, 20, 10⟩⟩, 30⟩] (by decide)⟩

/-- C3 counterexample: a target with no co-located items yields an empty
step list, which contains zero "retrieve" steps, contradicting the claim
that every returned step sequence has exactly one retrieve step. -/
theorem C3_counterexample :
    calculate_retrieval_steps ⟨1, 101, ⟨⟨0, 20, 0⟩, ⟨10, 30, 10⟩⟩, 50⟩ [] = [] ∧
      ((calculate_retrieval_steps ⟨1, 101, ⟨⟨0, 20, 0⟩, ⟨10, 30, 10⟩⟩, 50⟩
          []).filter
        (fun s => decide (s.action = StepAction.retrieve))).length ≠ 1 := by
  decide

/-- C3 amended: for every target and every list of co-located items, the
step sequence is empty when no item blocks; otherwise it decomposes as
numbered remove steps over a depth-sorted permutation of the blocking items,
one retrieve step for the requested item, and place steps in the exact
reverse remove order; the place-step ids are the reverse of the remove-step
ids (hence equal as multisets), and every retrieve step names the requested
item. -/
theorem C3_stack_discipline (target : PlacedRecord)
    (others : List PlacedRecord) :
    (blockingItems target others = [] →
        calculate_retrieval_steps target others = []) ∧
      (blockingItems target others ≠ [] →
        ∃ bs : List PlacedRecord,
          bs.Perm (blockingItems target others) ∧
            List.Sorted byDepth bs ∧
            calculate_retrieval_steps target others
              = numberSteps StepAction.remove bs 1
                ++ [⟨bs.length + 1, StepAction.retrieve, target.item_id,
                      target.name⟩]
                ++ numberSteps StepAction.place bs.reverse (bs.length + 2)) ∧
      (((calculate_retrieval_steps target others).filter
            (fun s => decide (s.action = StepAction.place))).map
          (fun s => s.item_id)
        = (((calculate_retrieval_steps target others).filter
              (fun s => decide (s.action = StepAction.remove))).map
            (fun s => s.item_id)).reverse) ∧
      (((calculate_retrieval_steps target others).filter
          (fun s => decide (s.action = StepAction.retrieve))).length
        = if blockingItems target others = [] then 0 else 1) ∧
      (∀ s ∈ calculate_retrieval_steps target others,
        s.action = StepAction.retrieve →
          s.item_id = target.item_id ∧ s.item_name = target.name) := by
  by_cases hbl : blockingItems target others = []
  · refine ⟨fun _ => ?_, fun h => absurd hbl h, ?_, ?_, ?_⟩
    · unfold calculate_retrieval_steps
      simp [hbl]
    · unfold calculate_retrieval_steps
      simp [hbl]
    · unfold calculate_retrieval_steps
      simp [hbl]
    · unfold calculate_retrieval_steps
      simp [hbl]
  · have hsteps : calculate_retrieval_steps target others
        = numberSteps StepAction.remove
            (List.insertionSort byDepth (blockingItems target others)) 1
          ++ [⟨(List.insertionSort byDepth (blockingItems target others)).length
                + 1, StepAction.retrieve, target.item_id, target.name⟩]
          ++ numberSteps StepAction.place
              (List.insertionSort byDepth (blockingItems target others)).reverse
              ((List.insertionSort byDepth
                (blockingItems target others)).length + 2) := by
      unfold calculate_retrieval_steps
      simp [hbl]
    refine ⟨fun h => absurd h hbl, fun _ => ?_, ?_, ?_, ?_⟩
    · refine ⟨List.insertionSort byDepth (blockingItems target others),
        List.perm_insertionSort byDepth _, List.sorted_insertionSort byDepth _,
        hsteps⟩
    · rw [hsteps]
      simp only [List.filter_append, List.map_append,
        numberSteps_filter_other (show StepAction.remove ≠ StepAction.place by
          decide),
        numberSteps_filter_same,
        numberSteps_filter_other (show StepAction.place ≠ StepAction.remove by
          decide)]
      simp [numberSteps_map_item_id, List.map_reverse]
    · rw [hsteps]
      simp only [List.filter_append, List.length_append,
        numberSteps_filter_other (show StepAction.remove ≠ StepAction.retrieve
          by decide),
        numberSteps_filter_other (show StepAction.place ≠ StepAction.retrieve
          by decide)]
      simp [hbl]
    · intro s hs hact
      rw [hsteps] at hs
      rcases List.mem_append.mp hs with h12 | h3
      · rcases List.mem_append.mp h12 with h1 | h2
        · have := numberSteps_action StepAction.remove _ _ s h1
          rw [this] at hact
          cases hact
        · have : s = ⟨(List.insertionSort byDepth
              (blockingItems target others)).length + 1, StepAction.retrieve,
              target.item_id, target.name⟩ := by
            simpa using h2
          rw [this]
          exact ⟨rfl, rfl⟩
      · have := numberSteps_action StepAction.place _ _ s h3
        rw [this] at hact
        cases hact

/-- C3 witness: the amended theorem applied to a target with a single
blocking item in front of it. -/
theorem C3_stack_discipline_witness :
    blockingItems ⟨1, 101, ⟨⟨0, 20, 0⟩, ⟨10, 30, 10⟩⟩, 50⟩
        [⟨2, 102, ⟨⟨0, 10, 0⟩, ⟨10, 20, 10⟩⟩, 80⟩] ≠ [] ∧
      (∃ bs : List PlacedRecord,
        bs.Perm (blockingItems ⟨1, 101, ⟨⟨0, 20, 0⟩, ⟨10, 30, 10⟩⟩, 50⟩
          [⟨2, 102, ⟨⟨0, 10, 0⟩, ⟨10, 20, 10⟩⟩, 80⟩]) ∧
          List.Sorted byDepth bs ∧
          calculate_retrieval_steps ⟨1, 101, ⟨⟨0, 20, 0⟩, ⟨10, 30, 10⟩⟩, 50⟩
              [⟨2, 102, ⟨⟨0, 10, 0⟩, ⟨10, 20, 10⟩⟩, 80⟩]
            = numberSteps StepAction.remove bs 1
              ++ [⟨bs.length + 1, StepAction.retrieve, 1, 101⟩]
              ++ numberSteps StepAction.place bs.reverse (bs.length + 2)) :=
  ⟨by decide,
    (C3_stack_discipline ⟨1, 101, ⟨⟨0, 20, 0⟩, ⟨10, 30, 10⟩⟩, 50⟩
      [⟨2, 102, ⟨⟨0, 10, 0⟩, ⟨10, 20, 10⟩⟩, 80⟩]).2.1 (by decide)⟩

/-- C9: for every item record, `calculate_priority_score` returns
0.4 * (priority / 100) + 0.4 * expiryUrgency + 0.2 * usageScore, where
expiryUrgency = clamp(1 - daysUntilExpiry / 365, 0.1, 1.0) when an expiry
date is present (defaulting to 1.0 when absent or unparseable) and
usageScore = clamp(usageLimit / 10, 0.1, 1.0) when a usage limit is present
(defaulting to 0.5 when absent or unparseable). -/
theorem C9_priority_score_formula (it : RetrieveItemRecord) :
    calculate_priority_score (some it)
      = 0.4 * ((it.priority : ℚ) / 100)
        + 0.4 * (it.daysUntilExpiry.elim 1
            (fun d => clampQ 0.1 1 (1 - (d : ℚ) / 365)))
        + 0.2 * (it.usageLimit.elim 0.5 (fun u => clampQ 0.1 1 (u / 10))) := by
  obtain ⟨p, de, ul⟩ := it
  unfold calculate_priority_score clampQ
  cases de <;> cases ul <;> simp [Option.elim]

/-- C7: for every item and container dimensions, the rotation enumerator's
first element is the unrotated item tagged NO_ROTATION, and every returned
variant's (width, depth, height) is the tag's transposition of the original
triple — so applying the same transposition again (its own inverse) recovers
the original dimensions exactly, and the variant's dimensions are a
permutation of the original's. -/
theorem C7_rotation_soundness (cont : ContainerDims) (item : ItemDimensions) :
    (get_90degree_rotations cont item).head?
        = some (item, Rotation.NO_ROTATION) ∧
      ∀ pr ∈ get_90degree_rotations cont item,
        dimsTriple pr.1 = rotApply pr.2 (dimsTriple item) ∧
          rotApply pr.2 (dimsTriple pr.1) = dimsTriple item ∧
          [pr.1.width_cm, pr.1.depth_cm, pr.1.height_cm].Perm
            [item.width_cm, item.depth_cm, item.height_cm] := by
  constructor
  · rfl
  · intro pr hpr
    have hmem : pr = (item, Rotation.NO_ROTATION)
        ∨ pr = (⟨item.width_cm, item.height_cm, item.depth_cm, item.priority,
            item.item_id⟩, Rotation.ROTATE_X)
        ∨ pr = (⟨item.height_cm, item.depth_cm, item.width_cm, item.priority,
            item.item_id⟩, Rotation.ROTATE_Y)
        ∨ pr = (⟨item.depth_cm, item.width_cm, item.height_cm, item.priority,
            item.item_id⟩, Rotation.ROTATE_Z) := by
      unfold get_90degree_rotations at hpr
      rcases List.mem_append.mp hpr with h | h
      · rcases List.mem_append.mp h with h | h
        · rcases List.mem_append.mp h with h | h
          · left
            simpa using h
          · right
            left
            split_ifs at h
            · simpa using h
            · simp at h
        · right
          right
          left
          split_ifs at h
          · simpa using h
          · simp at h
      · right
        right
        right
        split_ifs at h
        · simpa using h
        · simp at h
    rcases hmem with rfl | rfl | rfl | rfl
    · exact ⟨rfl, rfl, List.Perm.refl _⟩
    · exact ⟨rfl, rfl,
        (List.Perm.swap item.depth_cm item.height_cm []).cons item.width_cm⟩
    · refine ⟨rfl, rfl, ?_⟩
      exact ((List.Perm.swap item.width_cm item.depth_cm []).cons
          item.height_cm).trans
        ((List.Perm.swap item.width_cm item.height_cm [item.depth_cm]).trans
          ((List.Perm.swap item.depth_cm item.height_cm []).cons
            item.width_cm))
    · exact ⟨rfl, rfl,
        List.Perm.swap item.width_cm item.depth_cm [item.height_cm]⟩

/-- C7 witness: the rotation soundness theorem applied to a 3x4x5 item in a
10x10x10 container, evaluated at the ROTATE_X member of the returned list. -/
theorem C7_rotation_soundness_witness :
    ((⟨3, 5, 4, 7, 1⟩, Rotation.ROTATE_X)
        ∈ get_90degree_rotations ⟨10, 10, 10⟩ ⟨3, 4, 5, 7, 1⟩) ∧
      (dimsTriple (⟨3, 5, 4, 7, 1⟩ : ItemDimensions)
          = rotApply Rotation.ROTATE_X
            (dimsTriple (⟨3, 4, 5, 7, 1⟩ : ItemDimensions)) ∧
        rotApply Rotation.ROTATE_X
            (dimsTriple (⟨3, 5, 4, 7, 1⟩ : ItemDimensions))
          = dimsTriple (⟨3, 4, 5, 7, 1⟩ : ItemDimensions) ∧
        [(3 : ℚ), 5, 4].Perm [(3 : ℚ), 4, 5]) :=
  ⟨by decide,
    (C7_rotation_soundness ⟨10, 10, 10⟩ ⟨3, 4, 5, 7, 1⟩).2
      (⟨3, 5, 4, 7, 1⟩, Rotation.ROTATE_X) (by decide)⟩

theorem find_best_position_of_found {cont : ContainerDims} {m : SparseMatrix}
    {item : ItemDimensions} {pos : Position3D}
    (h : (scanPositions cont (ratTrunc item.width_cm) (ratTrunc item.depth_cm)
        (ratTrunc item.height_cm)).find?
        (fun pos => can_place_item cont m pos item) = some pos) :
    find_best_position cont m item = some pos := by
  unfold find_best_position
  rw [h]

theorem minCostFold_singleton (f : Position3D → ℝ) (pos : Position3D) :
    minCostFold f [pos] = some (f pos, pos) := rfl

theorem find_best_position_phase2_singleton {cont : ContainerDims}
    {m : SparseMatrix} {item : ItemDimensions} {q : Position3D}
    (h1 : (scanPositions cont (ratTrunc item.width_cm) (ratTrunc item.depth_cm)
        (ratTrunc item.height_cm)).find?
        (fun pos => can_place_item cont m pos item) = none)
    (h2 : (scanPositions cont (ratTrunc item.width_cm) (ratTrunc item.depth_cm)
        (ratTrunc item.height_cm)).filter
        (fun pos => m.is_occupied pos.x pos.y pos.z
          (pos.x + ratTrunc item.width_cm) (pos.y + ratTrunc item.depth_cm)
          (pos.z + ratTrunc item.height_cm)) = [q]) :
    find_best_position cont m item = some q := by
  unfold find_best_position
  simp only [h1, h2, minCostFold_singleton, Option.map_some']

theorem find_best_position_scan_ne_nil {cont : ContainerDims}
    {m : SparseMatrix} {item : ItemDimensions} {bp : Position3D}
    (h : find_best_position cont m item = some bp) :
    scanPositions cont (ratTrunc item.width_cm) (ratTrunc item.depth_cm)
      (ratTrunc item.height_cm) ≠ [] := by
  intro hnil
  unfold find_best_position at h
  rw [hnil] at h
  simp [minCostFold] at h

theorem rearrange_of_best_found {cont : ContainerDims} {st : CPState}
    {item : ItemDimensions} {bp : Position3D}
    (h : find_best_position cont st.space_matrix item = some bp) :
    rearrange_for_new_item cont st item = some (st, [], false) := by
  unfold rearrange_for_new_item
  rw [h]

theorem tryRotationsPass2_isSome (cont : ContainerDims) (item_id : ℤ) :
    ∀ (rots : List (ItemDimensions × Rotation)) (st : CPState),
      (tryRotationsPass2 cont st item_id rots).isSome := by
  intro rots
  induction rots with
  | nil =>
    intro st
    simp [tryRotationsPass2]
  | cons pr rest ih =>
    intro st
    obtain ⟨rotated_item, rotation⟩ := pr
    cases hf : find_best_position cont st.space_matrix rotated_item with
    | none => simpa [tryRotationsPass2, hf] using ih st
    | some bp =>
      cases hcp : can_place_item cont st.space_matrix bp rotated_item with
      | true => simp [tryRotationsPass2, hf, hcp]
      | false =>
        simp [tryRotationsPass2, hf, hcp, rearrange_of_best_found hf]

theorem tryRotationsPass1_spec (cont : ContainerDims) (item_id : ℤ) :
    ∀ (rots : List (ItemDimensions × Rotation)) (st st' : CPState)
      (pl : PlacementOut),
      tryRotationsPass1 cont st item_id rots = (st', some pl) →
      pl.item_id = item_id ∧
        ∃ pr ∈ rots, ∃ bp,
          find_best_position cont st.space_matrix pr.1 = some bp := by
  intro rots
  induction rots with
  | nil =>
    intro st st' pl h
    simp [tryRotationsPass1] at h
  | cons pr rest ih =>
    intro st st' pl h
    obtain ⟨ri, rot⟩ := pr
    cases hf : find_best_position cont st.space_matrix ri with
    | none =>
      simp only [tryRotationsPass1, hf] at h
      obtain ⟨h1, pr', hpr', hbp⟩ := ih st st' pl h
      exact ⟨h1, pr', List.mem_cons_of_mem _ hpr', hbp⟩
    | some bp =>
      cases hcp : can_place_item cont st.space_matrix bp ri with
      | false =>
        simp only [tryRotationsPass1, hf, hcp, Bool.false_eq_true,
          if_false] at h
        obtain ⟨h1, pr', hpr', hbp⟩ := ih st st' pl h
        exact ⟨h1, pr', List.mem_cons_of_mem _ hpr', hbp⟩
      | true =>
        simp only [tryRotationsPass1, hf, hcp, if_true, Prod.mk.injEq] at h
        obtain ⟨h1, h2⟩ := h
        cases h2
        exact ⟨rfl, (ri, rot), List.mem_cons_self _ _, bp, hf⟩

theorem tryRotationsPass2_spec (cont : ContainerDims) (item_id : ℤ) :
    ∀ (rots : List (ItemDimensions × Rotation)) (st : CPState)
      (r : CPState × List MoveRecord × Option PlacementOut),
      tryRotationsPass2 cont st item_id rots = some r →
      ∀ pl : PlacementOut, r.2.2 = some pl →
        pl.item_id = item_id ∧
          ∃ pr ∈ rots, ∃ bp,
            find_best_position cont st.space_matrix pr.1 = some bp := by
  intro rots
  induction rots with
  | nil =>
    intro st r h pl hpl
    simp only [tryRotationsPass2, Option.some_inj] at h
    rw [← h] at hpl
    simp at hpl
  | cons pr rest ih =>
    intro st r h pl hpl
    obtain ⟨ri, rot⟩ := pr
    cases hf : find_best_position cont st.space_matrix ri with
    | none =>
      simp only [tryRotationsPass2, hf] at h
      obtain ⟨h1, pr', hpr', hbp⟩ := ih st r h pl hpl
      exact ⟨h1, pr', List.mem_cons_of_mem _ hpr', hbp⟩
    | some bp =>
      cases hcp : can_place_item cont st.space_matrix bp ri with
      | true =>
        simp only [tryRotationsPass2, hf, hcp, if_true, Option.map_some',
          Option.some_inj] at h
        rw [← h] at hpl
        simp only [Option.some_inj] at hpl
        rw [← hpl]
        exact ⟨rfl, (ri, rot), List.mem_cons_self _ _, bp, hf⟩
      | false =>
        simp only [tryRotationsPass2, hf, hcp, Bool.false_eq_true, if_false,
          rearrange_of_best_found hf, Option.map_some', Option.some_inj] at h
        rw [← h] at hpl
        simp only [Option.some_inj] at hpl
        rw [← hpl]
        exact ⟨rfl, (ri, rot), List.mem_cons_self _ _, bp, hf⟩

theorem pass1_spec (cont : ContainerDims) :
    ∀ (items : List ItemDimensions) (st : CPState)
      (placements : List PlacementOut),
      ∀ pl ∈ (pass1 cont items st placements).2,
        pl ∈ placements ∨
          ∃ it ∈ items, pl.item_id = it.item_id ∧
            ∃ pr ∈ get_90degree_rotations cont it, ∃ m bp,
              find_best_position cont m pr.1 = some bp := by
  intro items
  induction items with
  | nil =>
    intro st placements pl hpl
    exact Or.inl (by simpa [pass1] using hpl)
  | cons item rest ih =>
    intro st placements pl hpl
    cases htr : tryRotationsPass1 cont st item.item_id
        (get_90degree_rotations cont item) with
    | mk st1 plOpt =>
      cases plOpt with
      | some pl0 =>
        have hpl' : pl ∈ (pass1 cont rest st1 (placements ++ [pl0])).2 := by
          simpa [pass1, htr] using hpl
        rcases ih st1 (placements ++ [pl0]) pl hpl' with hin | ⟨it, hit, hid, hev⟩
        · rcases List.mem_append.mp hin with hin | hin
          · exact Or.inl hin
          · have hpl0 : pl = pl0 := by simpa using hin
            obtain ⟨hid0, pr', hpr', bp, hbp⟩ :=
              tryRotationsPass1_spec cont item.item_id _ st st1 pl0 htr
            subst hpl0
            exact Or.inr ⟨item, List.mem_cons_self _ _, hid0,
              pr', hpr', st.space_matrix, bp, hbp⟩
        · exact Or.inr ⟨it, List.mem_cons_of_mem _ hit, hid, hev⟩
      | none =>
        have hpl' : pl ∈ (pass1 cont rest st1 placements).2 := by
          simpa [pass1, htr] using hpl
        rcases ih st1 placements pl hpl' with hin | ⟨it, hit, hid, hev⟩
        · exact Or.inl hin
        · exact Or.inr ⟨it, List.mem_cons_of_mem _ hit, hid, hev⟩

theorem pass2_isSome (cont : ContainerDims) :
    ∀ (items : List ItemDimensions) (st : CPState)
      (placements : List PlacementOut) (rearrangements : List MoveRecord),
      (pass2 cont items st placements rearrangements).isSome := by
  intro items
  induction items with
  | nil =>
    intro st placements rearrangements
    simp [pass2]
  | cons item rest ih =>
    intro st placements rearrangements
    by_cases hskip : placements.any (fun p => p.item_id = item.item_id)
    · simpa [pass2, hskip] using ih st placements rearrangements
    · cases htr : tryRotationsPass2 cont st item.item_id
          (get_90degree_rotations cont item) with
      | none =>
        have := tryRotationsPass2_isSome cont item.item_id
          (get_90degree_rotations cont item) st
        rw [htr] at this
        simp at this
      | some r =>
        obtain ⟨st', moves, plOpt⟩ := r
        simpa [pass2, hskip, htr] using
          ih st' (placements ++ plOpt.toList) (rearrangements ++ moves)

theorem pass2_spec (cont : ContainerDims) :
    ∀ (items : List ItemDimensions) (st : CPState)
      (placements : List PlacementOut) (rearrangements : List MoveRecord)
      (r : CPState × List PlacementOut × List MoveRecord),
      pass2 cont items st placements rearrangements = some r →
      ∀ pl ∈ r.2.1,
        pl ∈ placements ∨
          ∃ it ∈ items, pl.item_id = it.item_id ∧
            ∃ pr ∈ get_90degree_rotations cont it, ∃ m bp,
              find_best_position cont m pr.1 = some bp := by
  intro items
  induction items with
  | nil =>
    intro st placements rearrangements r h pl hpl
    simp only [pass2, Option.some_inj] at h
    rw [← h] at hpl
    exact Or.inl hpl
  | cons item rest ih =>
    intro st placements rearrangements r h pl hpl
    by_cases hskip : placements.any (fun p => p.item_id = item.item_id)
    · simp only [pass2, hskip, if_true] at h
      rcases ih st placements rearrangements r h pl hpl with
        hin | ⟨it, hit, hid, hev⟩
      · exact Or.inl hin
      · exact Or.inr ⟨it, List.mem_cons_of_mem _ hit, hid, hev⟩
    · cases htr : tryRotationsPass2 cont st item.item_id
          (get_90degree_rotations cont item) with
      | none =>
        have := tryRotationsPass2_isSome cont item.item_id
          (get_90degree_rotations cont item) st
        rw [htr] at this
        simp at this
      | some r0 =>
        obtain ⟨st', moves, plOpt⟩ := r0
        have h' : pass2 cont rest st' (placements ++ plOpt.toList)
            (rearrangements ++ moves) = some r := by
          simpa [pass2, hskip, htr] using h
        rcases ih st' (placements ++ plOpt.toList) (rearrangements ++ moves)
            r h' pl hpl with hin | ⟨it, hit, hid, hev⟩
        · rcases List.mem_append.mp hin with hin | hin
          · exact Or.inl hin
          · cases hplOpt : plOpt with
            | none =>
              rw [hplOpt] at hin
              simp at hin
            | some pl0 =>
              rw [hplOpt] at hin
              have hpl0 : pl = pl0 := by simpa using hin
              obtain ⟨hid0, pr', hpr', bp, hbp⟩ :=
                tryRotationsPass2_spec cont item.item_id _ st
                  (st', moves, plOpt) htr pl0 (by rw [hplOpt])
              subst hpl0
              exact Or.inr ⟨item, List.mem_cons_self _ _, hid0,
                pr', hpr', st.space_matrix, bp, hbp⟩
        · exact Or.inr ⟨it, List.mem_cons_of_mem _ hit, hid, hev⟩

/-- C8 amended: `find_optimal_placement` is total (the modelled exception
value never occurs), and every placement in the output belongs to an input
item one of whose rotation variants has at least one in-bounds scan
candidate.  Contrapositively, an item none of whose rotation variants fits
the container bounds at any scan position is silently omitted from the
output — but an item that merely cannot be placed without overlap is not
omitted (see the counterexample). -/
theorem C8_total_and_ids (cont : ContainerDims) (st0 : CPState)
    (items : List ItemDimensions) :
    (find_optimal_placement cont st0 items).isSome ∧
      ∀ pl ∈ ((find_optimal_placement cont st0 items).map
          (fun r => r.2.1)).getD [],
        ∃ it ∈ items, pl.item_id = it.item_id ∧
          ∃ pr ∈ get_90degree_rotations cont it,
            scanPositions cont (ratTrunc pr.1.width_cm)
              (ratTrunc pr.1.depth_cm) (ratTrunc pr.1.height_cm) ≠ [] := by
  by_cases hitems : items = []
  · subst hitems
    constructor
    · simp [find_optimal_placement]
    · intro pl hpl
      simp [find_optimal_placement] at hpl
  · have hdef : find_optimal_placement cont st0 items
        = pass2 cont (List.insertionSort sortKeyLe items)
            (pass1 cont (List.insertionSort sortKeyLe items)
              { st0 with items_dict := (items.foldl
                  (fun d it => dictInsert d it.item_id it) st0.items_dict) }
              []).1
            (pass1 cont (List.insertionSort sortKeyLe items)
              { st0 with items_dict := (items.foldl
                  (fun d it => dictInsert d it.item_id it) st0.items_dict) }
              []).2
            [] := by
      unfold find_optimal_placement
      rw [if_neg hitems]
    have hsome : (find_optimal_placement cont st0 items).isSome := by
      rw [hdef]
      exact pass2_isSome cont _ _ _ _
    refine ⟨hsome, ?_⟩
    intro pl hpl
    obtain ⟨r, hr⟩ := Option.isSome_iff_exists.mp hsome
    rw [hr] at hpl
    simp only [Option.map_some', Option.getD_some] at hpl
    have hpass2 : pass2 cont (List.insertionSort sortKeyLe items)
        (pass1 cont (List.insertionSort sortKeyLe items)
          { st0 with items_dict := (items.foldl
              (fun d it => dictInsert d it.item_id it) st0.items_dict) }
          []).1
        (pass1 cont (List.insertionSort sortKeyLe items)
          { st0 with items_dict := (items.foldl
              (fun d it => dictInsert d it.item_id it) st0.items_dict) }
          []).2
        [] = some r := by
      rw [← hdef]
      exact hr
    rcases pass2_spec cont (List.insertionSort sortKeyLe items) _ _ [] r
        hpass2 pl hpl with hin | ⟨it, hit, hid, pr', hpr', m, bp, hbp⟩
    · rcases pass1_spec cont (List.insertionSort sortKeyLe items)
          { st0 with items_dict := (items.foldl
              (fun d it => dictInsert d it.item_id it) st0.items_dict) }
          [] pl hin with hnil | ⟨it, hit, hid, pr', hpr', m, bp, hbp⟩
      · simp at hnil
      · exact ⟨it, (List.perm_insertionSort sortKeyLe items).mem_iff.mp hit,
          hid, pr', hpr', find_best_position_scan_ne_nil hbp⟩
    · exact ⟨it, (List.perm_insertionSort sortKeyLe items).mem_iff.mp hit,
        hid, pr', hpr', find_best_position_scan_ne_nil hbp⟩

theorem cex_rotA : get_90degree_rotations cexContainer cexItemA
    = [(cexItemA, Rotation.NO_ROTATION), (cexItemA, Rotation.ROTATE_X),
        (cexItemA, Rotation.ROTATE_Y), (cexItemA, Rotation.ROTATE_Z)] := by
  decide

theorem cex_rotB : get_90degree_rotations cexContainer cexItemB
    = [(cexItemB, Rotation.NO_ROTATION), (cexItemB, Rotation.ROTATE_X),
        (cexItemB, Rotation.ROTATE_Y), (cexItemB, Rotation.ROTATE_Z)] := by
  decide

theorem cex_fbpA : find_best_position cexContainer cexSt1.space_matrix cexItemA
    = some ⟨0, 0, 0⟩ :=
  find_best_position_of_found (by decide)

theorem cex_fbpB : find_best_position cexContainer cexStA.space_matrix cexItemB
    = some ⟨0, 0, 0⟩ :=
  find_best_position_phase2_singleton (by decide) (by decide)

theorem cex_mkA : mkPlacement cexItemA.item_id ⟨0, 0, 0⟩ cexItemA
    Rotation.NO_ROTATION = cexPlA := by
  simp only [mkPlacement, cexItemA, cexPlA, PlacementOut.mk.injEq,
    Coordinates.mk.injEq]
  norm_num

theorem cex_mkB : mkPlacement cexItemB.item_id ⟨0, 0, 0⟩ cexItemB
    Rotation.NO_ROTATION = cexPlB := by
  simp only [mkPlacement, cexItemB, cexPlB, PlacementOut.mk.injEq,
    Coordinates.mk.injEq]
  norm_num

theorem cex_tryA : tryRotationsPass1 cexContainer cexSt1 cexItemA.item_id
    (get_90degree_rotations cexContainer cexItemA) = (cexStA, some cexPlA) := by
  rw [cex_rotA]
  simp only [tryRotationsPass1, cex_fbpA,
    show can_place_item cexContainer cexSt1.space_matrix ⟨0, 0, 0⟩ cexItemA
      = true from by decide]
  simp only [if_true]
  rw [cex_mkA]
  rfl

theorem cex_tryB1 : tryRotationsPass1 cexContainer cexStA cexItemB.item_id
    (get_90degree_rotations cexContainer cexItemB) = (cexStA, none) := by
  rw [cex_rotB]
  simp only [tryRotationsPass1, cex_fbpB,
    show can_place_item cexContainer cexStA.space_matrix ⟨0, 0, 0⟩ cexItemB
      = false from by decide]
  simp only [Bool.false_eq_true, if_false]

theorem cex_pass1 : pass1 cexContainer [cexItemA, cexItemB] cexSt1 []
    = (cexStA, [cexPlA]) := by
  simp only [pass1, cex_tryA, cex_tryB1]
  simp

theorem cex_tryB2 : tryRotationsPass2 cexContainer cexStA cexItemB.item_id
    (get_90degree_rotations cexContainer cexItemB)
    = some (cexStB, [], some cexPlB) := by
  rw [cex_rotB]
  simp only [tryRotationsPass2, cex_fbpB,
    show can_place_item cexContainer cexStA.space_matrix ⟨0, 0, 0⟩ cexItemB
      = false from by decide,
    Bool.false_eq_true, if_false, rearrange_of_best_found cex_fbpB,
    Option.map_some']
  rw [cex_mkB]
  rfl

theorem cex_pass2 : pass2 cexContainer [cexItemA, cexItemB] cexStA [cexPlA] []
    = some (cexStB, [cexPlA, cexPlB], []) := by
  simp only [pass2,
    show ([cexPlA].any (fun p => p.item_id = cexItemA.item_id)) = true from by
      decide,
    show ([cexPlA].any (fun p => p.item_id = cexItemB.item_id)) = false from by
      decide,
    cex_tryB2]
  simp [Option.toList]

theorem cex_run :
    (find_optimal_placement cexContainer (CPState.init cexContainer)
        [cexItemA, cexItemB]).map (fun r => r.2.1)
      = some [cexPlA, cexPlB] := by
  have hne : ([cexItemA, cexItemB] : List ItemDimensions) ≠ [] :=
    List.cons_ne_nil _ _
  have hdef : find_optimal_placement cexContainer (CPState.init cexContainer)
      [cexItemA, cexItemB]
      = pass2 cexContainer (List.insertionSort sortKeyLe [cexItemA, cexItemB])
          (pass1 cexContainer (List.insertionSort sortKeyLe [cexItemA, cexItemB])
            { CPState.init cexContainer with
              items_dict := ([cexItemA, cexItemB].foldl
                (fun d it => dictInsert d it.item_id it)
                (CPState.init cexContainer).items_dict) }
            []).1
          (pass1 cexContainer (List.insertionSort sortKeyLe [cexItemA, cexItemB])
            { CPState.init cexContainer with
              items_dict := ([cexItemA, cexItemB].foldl
                (fun d it => dictInsert d it.item_id it)
                (CPState.init cexContainer).items_dict) }
            []).2
          [] := by
    unfold find_optimal_placement
    rw [if_neg hne]
  rw [hdef,
    show List.insertionSort sortKeyLe [cexItemA, cexItemB]
      = [cexItemA, cexItemB] from by decide,
    show ({ CPState.init cexContainer with
        items_dict := ([cexItemA, cexItemB].foldl
          (fun d it => dictInsert d it.item_id it)
          (CPState.init cexContainer).items_dict) } : CPState)
      = cexSt1 from by decide,
    cex_pass1, cex_pass2]
  rfl

/-- C1 (code-bug demonstration): on a 5x5x5 container with two 5x5x5 items,
`find_optimal_placement` records both items at the identical box
(0,0,0)-(5,5,5): the second pass places an item even though the chosen
position is occupied and rearrangement failed, so two distinct recorded
placements overlap under the open-interval intersection test. -/
theorem C1_no_overlap_violated :
    (find_optimal_placement cexContainer (CPState.init cexContainer)
        [cexItemA, cexItemB]).map (fun r => r.2.1) = some [cexPlA, cexPlB] ∧
      ¬noOverlapInvariant [cexPlA, cexPlB] :=
  ⟨cex_run, by decide⟩

/-- C8 counterexample: `cexItemB` cannot be placed directly (every scan
position of every rotation is occupied) nor via rearrangement (the
rearrangement call returns success = false), yet its id still appears in the
returned placements — at a box overlapping `cexItemA`'s — instead of the
item being omitted. -/
theorem C8_counterexample :
    (find_optimal_placement cexContainer (CPState.init cexContainer)
        [cexItemA, cexItemB]).map (fun r => r.2.1) = some [cexPlA, cexPlB] ∧
      rearrange_for_new_item cexContainer cexStA cexItemB
        = some (cexStA, [], false) ∧
      cexItemB.item_id ∈ [cexPlA, cexPlB].map (fun p => p.item_id) ∧
      boxesOverlap cexPlA cexPlB :=
  ⟨cex_run, rearrange_of_best_found cex_fbpB, by decide, by decide⟩

/-- C8 witness: the totality-and-membership theorem applied to the concrete
run of `cex_run`, instantiated at the recorded placement of `cexItemA`. -/
theorem C8_total_and_ids_witness :
    (cexPlA ∈ ((find_optimal_placement cexContainer (CPState.init cexContainer)
        [cexItemA, cexItemB]).map (fun r => r.2.1)).getD []) ∧
      ∃ it ∈ [cexItemA, cexItemB], cexPlA.item_id = it.item_id ∧
        ∃ pr ∈ get_90degree_rotations cexContainer it,
          scanPositions cexContainer (ratTrunc pr.1.width_cm)
            (ratTrunc pr.1.depth_cm) (ratTrunc pr.1.height_cm) ≠ [] :=
  ⟨by rw [cex_run]; decide,
    (C8_total_and_ids cexContainer (CPState.init cexContainer)
      [cexItemA, cexItemB]).2 cexPlA (by rw [cex_run]; decide)⟩

/-! #### Priority A* retrieval: dictionary and ordering lemmas -/

theorem dictGet_cons_pos {α β : Type} [DecidableEq α]
    {hd : α × β} {tl : List (α × β)} {k : α} (h : hd.1 = k) :
    dictGet (hd :: tl) k = some hd.2 := by
  unfold dictGet
  rw [List.find?_cons_of_pos _ (by simpa using h)]
  rfl

theorem dictGet_cons_neg {α β : Type} [DecidableEq α]
    {hd : α × β} {tl : List (α × β)} {k : α} (h : ¬hd.1 = k) :
    dictGet (hd :: tl) k = dictGet tl k := by
  unfold dictGet
  rw [List.find?_cons_of_neg _ (by simpa using h)]

theorem dictGet_map_replace_cases {α β : Type} [DecidableEq α]
    {l : List (α × β)} {k k' : α} {v v' : β}
    (h : dictGet (l.map (fun p => if p.1 = k then (k, v) else p)) k'
      = some v') :
    (k' = k ∧ v' = v) ∨ dictGet l k' = some v' := by
  induction l with
  | nil => simp [dictGet] at h
  | cons hd tl ih =>
    simp only [List.map_cons] at h
    by_cases h1 : hd.1 = k
    · rw [if_pos h1] at h
      by_cases h2 : k' = k
      · rw [dictGet_cons_pos (show (k, v).1 = k' by simpa using h2.symm)] at h
        exact Or.inl ⟨h2, by simpa using h.symm⟩
      · rw [dictGet_cons_neg (show ¬(k, v).1 = k' by
            simpa using fun hh => h2 hh.symm)] at h
        rcases ih h with hl | hr
        · exact Or.inl hl
        · refine Or.inr ?_
          rw [dictGet_cons_neg (show ¬hd.1 = k' by
            rw [h1]; exact fun hh => h2 hh.symm)]
          exact hr
    · rw [if_neg h1] at h
      by_cases h3 : hd.1 = k'
      · rw [dictGet_cons_pos h3] at h
        refine Or.inr ?_
        rw [dictGet_cons_pos h3]
        exact h
      · rw [dictGet_cons_neg h3] at h
        rcases ih h with hl | hr
        · exact Or.inl hl
        · refine Or.inr ?_
          rw [dictGet_cons_neg h3]
          exact hr

theorem dictGet_dictInsert_cases {α β : Type} [DecidableEq α]
    {l : List (α × β)} {k k' : α} {v v' : β}
    (h : dictGet (dictInsert l k v) k' = some v') :
    (k' = k ∧ v' = v) ∨ dictGet l k' = some v' := by
  unfold dictInsert at h
  by_cases hany : l.any (fun p => p.1 = k)
  · rw [if_pos hany] at h
    exact dictGet_map_replace_cases h
  · rw [if_neg hany] at h
    unfold dictGet at h
    rw [List.find?_append] at h
    cases hf : l.find? (fun p => decide (p.1 = k')) with
    | some q =>
      rw [hf] at h
      refine Or.inr ?_
      unfold dictGet
      rw [hf]
      exact h
    | none =>
      rw [hf] at h
      replace h : (([(k, v)].find? (fun p => decide (p.1 = k'))).map
          (fun p => p.2)) = some v' := h
      by_cases h2 : (k, v).1 = k'
      · rw [List.find?_cons_of_pos _ (by simpa using h2)] at h
        exact Or.inl ⟨by simpa using h2.symm, by simpa using h.symm⟩
      · rw [List.find?_cons_of_neg _ (by simpa using h2)] at h
        simp [List.find?] at h

theorem nodeLt_eq_nodeLtZ {a b : RetrievalNode}
    (ha : a.priority_bonus = 0) (hb : b.priority_bonus = 0) :
    nodeLt a b = nodeLtZ a b := by
  unfold nodeLt nodeLtZ
  rw [ha, hb]
  simp only [sub_zero]
  exact decide_eq_decide.mpr Int.cast_lt

theorem bonus_getD_zero {store : List RetrievalNode}
    (h : AllBonusZero store) (i : ℕ) :
    (store.getD i default).priority_bonus = 0 := by
  rw [List.getD_eq_getElem?_getD]
  cases hg : store[i]? with
  | none => rfl
  | some n =>
    simpa using h n (List.getElem?_mem hg)

theorem storeLtWith_nodeLt_eq {store : List RetrievalNode}
    (h : AllBonusZero store) :
    storeLtWith nodeLt store = storeLtWith nodeLtZ store := by
  funext i j
  exact nodeLt_eq_nodeLtZ (bonus_getD_zero h i) (bonus_getD_zero h j)

theorem AllBonusZero_append {store : List RetrievalNode}
    {n : RetrievalNode} (h : AllBonusZero store)
    (hn : n.priority_bonus = 0) : AllBonusZero (store ++ [n]) := by
  intro m hm
  rcases List.mem_append.mp hm with hm | hm
  · exact h m hm
  · rw [List.mem_singleton.mp hm]; exact hn

theorem AllBonusZero_set {store : List RetrievalNode} {i : ℕ}
    {n : RetrievalNode} (h : AllBonusZero store)
    (hn : n.priority_bonus = 0) : AllBonusZero (store.set i n) := by
  intro m hm
  rcases List.mem_or_eq_of_mem_set hm with hm | hm
  · exact h m hm
  · rw [hm]; exact hn

theorem processNeighbor_bonus (cmp : RetrievalNode → RetrievalNode → Bool)
    (target_pos : GridPos) (currentId : ℕ) (st : AStarState)
    (np : GridPos) (h : AllBonusZero st.store) :
    AllBonusZero
      ((processNeighbor cmp target_pos 0 currentId st np).store) := by
  simp only [processNeighbor]
  split
  · exact h
  · split
    · exact AllBonusZero_append h rfl
    · split
      · exact h
      · split
        · exact AllBonusZero_set h (bonus_getD_zero h _)
        · exact h

theorem processNeighbor_cmp_eq (target_pos : GridPos) (currentId : ℕ)
    (st : AStarState) (np : GridPos) (h : AllBonusZero st.store) :
    processNeighbor nodeLt target_pos 0 currentId st np
      = processNeighbor nodeLtZ target_pos 0 currentId st np := by
  simp only [processNeighbor]
  split
  · rfl
  · split
    · rw [storeLtWith_nodeLt_eq]
      exact AllBonusZero_append h rfl
    · split
      · rfl
      · split
        · rw [storeLtWith_nodeLt_eq]
          exact AllBonusZero_set h (bonus_getD_zero h _)
        · rfl

theorem foldPN_bonus (cmp : RetrievalNode → RetrievalNode → Bool)
    (target_pos : GridPos) (currentId : ℕ) :
    ∀ (vs : List GridPos) (st : AStarState), AllBonusZero st.store →
      AllBonusZero
        ((vs.foldl (processNeighbor cmp target_pos 0 currentId) st).store)
  := by
  intro vs
  induction vs with
  | nil => intro st h; exact h
  | cons v rest ih =>
    intro st h
    simp only [List.foldl_cons]
    exact ih _ (processNeighbor_bonus cmp target_pos currentId st v h)

theorem foldPN_cmp_eq (target_pos : GridPos) (currentId : ℕ) :
    ∀ (vs : List GridPos) (st : AStarState), AllBonusZero st.store →
      vs.foldl (processNeighbor nodeLt target_pos 0 currentId) st
        = vs.foldl (processNeighbor nodeLtZ target_pos 0 currentId) st := by
  intro vs
  induction vs with
  | nil => intro st _; rfl
  | cons v rest ih =>
    intro st h
    simp only [List.foldl_cons]
    rw [processNeighbor_cmp_eq target_pos currentId st v h]
    exact ih _ (processNeighbor_bonus nodeLtZ target_pos currentId st v h)

theorem astarLoop_cmp_eq (e : PriorityAStarRetrieval)
    (target_pos : GridPos) :
    ∀ (fuel : ℕ) (st : AStarState), AllBonusZero st.store →
      astarLoop nodeLt e target_pos 0 fuel st
        = astarLoop nodeLtZ e target_pos 0 fuel st := by
  intro fuel
  induction fuel with
  | zero => intro st _; rfl
  | succ n ih =>
    intro st h
    simp only [astarLoop]
    rw [storeLtWith_nodeLt_eq h]
    cases hpop : heappop (storeLtWith nodeLtZ st.store) st.open_pq with
    | none => rfl
    | some pr =>
      obtain ⟨cid, pq1⟩ := pr
      dsimp only
      cases hd : dictGet st.nodesDict
          ((st.store.getD cid default).position) with
      | none => rfl
      | some bid =>
        dsimp only
        rw [nodeLt_eq_nodeLtZ (bonus_getD_zero h bid) (bonus_getD_zero h cid)]
        split
        · exact ih _ h
        · split
          · rfl
          · rw [foldPN_cmp_eq target_pos cid]
            · exact ih _ (foldPN_bonus nodeLtZ target_pos cid _ _ h)
            · exact h

theorem searchWith_cmp_eq (e : PriorityAStarRetrieval)
    (start_pos target_pos : GridPos) (itemId : ℤ)
    (hscore : calculate_priority_score (dictGet e.items_data itemId) = 0) :
    searchWith nodeLt e start_pos target_pos itemId
      = searchWith nodeLtZ e start_pos target_pos itemId := by
  simp only [searchWith]
  cases henv : (if is_valid_position e start_pos then some e
    else if start_pos = ((0 : ℤ), (0 : ℤ), (0 : ℤ)) then
      some { e with occupied_spaces :=
        e.occupied_spaces.filter (fun p => decide (p ≠ start_pos)) }
    else none) with
  | none => rfl
  | some env =>
    have hitems : env.items_data = e.items_data := by
      by_cases h1 : is_valid_position e start_pos
      · rw [if_pos h1] at henv
        cases henv; rfl
      · rw [if_neg h1] at henv
        by_cases h2 : start_pos = ((0 : ℤ), (0 : ℤ), (0 : ℤ))
        · rw [if_pos h2] at henv
          cases henv; rfl
        · rw [if_neg h2] at henv
          cases henv
    dsimp only
    split
    · rfl
    · rw [hitems, hscore]
      rw [storeLtWith_nodeLt_eq]
      · rw [astarLoop_cmp_eq env target_pos (astarFuel env)]
        intro m hm
        rcases List.mem_singleton.mp hm with rfl
        rfl
      · intro m hm
        rcases List.mem_singleton.mp hm with rfl
        rfl

theorem find_retrieval_path_eq_searchZ (e : PriorityAStarRetrieval)
    (start_pos target_pos : GridPos) (itemId : ℤ)
    (hscore : calculate_priority_score (dictGet e.items_data itemId) = 0) :
    find_retrieval_path e start_pos target_pos itemId
      = searchWith nodeLtZ e start_pos target_pos itemId :=
  searchWith_cmp_eq e start_pos target_pos itemId hscore

/-- **C4.**  The A* path-correctness claim is violated: on a 7 by 5 by 2
container with the 19 occupied cells of `c4Occupied`, a free in-bounds start
`(0,4,0)` and a free in-bounds target `(6,3,1)`, `find_retrieval_path`
returns a path of 12 steps although a free 6-connected path of 10 steps
exists (so the true shortest distance is at most 10).  The root cause is the
in-place decrease-key: the `elif` branch mutates a node that is still inside
the `heapq` list and re-pushes it, corrupting the heap order, after which a
pop can deliver a non-minimal node and a cell is closed with a suboptimal
`g_cost`. -/
theorem C4_optimality_violated :
    (find_retrieval_path c4Env c4Start c4Target 1).map
        (fun rp => rp.steps.length) = some 12
    ∧ freePathChain c4Env c4ShortPath = true
    ∧ c4ShortPath.head? = some c4Start
    ∧ c4ShortPath.getLast? = some c4Target
    ∧ c4ShortPath.length = 11 := by
  refine ⟨?_, by decide, by decide, by decide, by decide⟩
  rw [find_retrieval_path_eq_searchZ c4Env c4Start c4Target 1 rfl]
  decide

/-! #### Priority A* retrieval: parent-chain and heap lemmas -/

theorem wfChain_nonneg {store : List RetrievalNode} {closed : List GridPos} :
    ∀ {f : ℕ} {n : RetrievalNode},
      wfChain store closed f n → 0 ≤ n.g_cost := by
  intro f
  induction f with
  | zero =>
    intro n h
    exact le_of_eq h.2.symm
  | succ f ih =>
    intro n h
    rcases h with ⟨_, h0⟩ | ⟨p, pn, _, _, _, hg, hwf⟩
    · exact le_of_eq h0.symm
    · have := ih hwf
      omega

theorem wfChain_append {store : List RetrievalNode} {closed : List GridPos}
    (l : List RetrievalNode) :
    ∀ {f : ℕ} {n : RetrievalNode},
      wfChain store closed f n → wfChain (store ++ l) closed f n := by
  intro f
  induction f with
  | zero => intro n h; exact h
  | succ f ih =>
    intro n h
    rcases h with h | ⟨p, pn, hp, hget, hc, hg, hwf⟩
    · exact Or.inl h
    · refine Or.inr ⟨p, pn, hp, ?_, hc, hg, ih hwf⟩
      have hlt : p < store.length := by
        by_contra hcon
        push_neg at hcon
        rw [List.getElem?_eq_none_iff.mpr hcon] at hget
        cases hget
      rw [List.getElem?_append_left hlt]
      exact hget

theorem wfChain_set {store : List RetrievalNode} {closed : List GridPos}
    {i : ℕ} {v u : RetrievalNode}
    (hv : store[i]? = some v) (hvc : v.position ∉ closed) :
    ∀ {f : ℕ} {n : RetrievalNode},
      wfChain store closed f n → wfChain (store.set i u) closed f n := by
  intro f
  induction f with
  | zero => intro n h; exact h
  | succ f ih =>
    intro n h
    rcases h with h | ⟨p, pn, hp, hget, hc, hg, hwf⟩
    · exact Or.inl h
    · refine Or.inr ⟨p, pn, hp, ?_, hc, hg, ih hwf⟩
      have hne : i ≠ p := by
        intro he
        rw [he] at hv
        rw [hv] at hget
        cases hget
        exact hvc hc
      rw [List.getElem?_set_ne hne]
      exact hget

theorem wfChain_closed_cons {store : List RetrievalNode}
    {closed : List GridPos} (c : GridPos) :
    ∀ {f : ℕ} {n : RetrievalNode},
      wfChain store closed f n → wfChain store (c :: closed) f n := by
  intro f
  induction f with
  | zero => intro n h; exact h
  | succ f ih =>
    intro n h
    rcases h with h | ⟨p, pn, hp, hget, hc, hg, hwf⟩
    · exact Or.inl h
    · exact Or.inr ⟨p, pn, hp, hget, List.mem_cons_of_mem c hc, hg, ih hwf⟩

theorem buildStepsAux_length {store : List RetrievalNode}
    {closed : List GridPos} (itemId : ℤ) (prio : ℚ) :
    ∀ (f : ℕ) (n : RetrievalNode), wfChain store closed f n →
      f = n.g_cost.toNat →
      (buildStepsAux store itemId prio f n).length = f := by
  intro f
  induction f with
  | zero => intro n _ _; rfl
  | succ f ih =>
    intro n h hf
    rcases h with ⟨hp, h0⟩ | ⟨p, pn, hp, hget, _, hg, hwf⟩
    · rw [h0] at hf
      simp at hf
    · simp only [buildStepsAux, hp]
      have hpn : store.getD p default = pn := by
        rw [List.getD_eq_getElem?_getD, hget]
        rfl
      rw [hpn]
      simp only [List.length_cons]
      have hnn := wfChain_nonneg hwf
      rw [ih pn hwf (by omega)]

theorem getD_mem_or_zero (l : List ℕ) (i : ℕ) : l.getD i 0 ∈ l ∨ l.getD i 0 = 0 := by
  rw [List.getD_eq_getElem?_getD]
  cases h : l[i]? with
  | none => exact Or.inr rfl
  | some a => exact Or.inl (by simpa using List.getElem?_mem h)

theorem mem_siftdownLoop {lt : ℕ → ℕ → Bool} {newitem startpos : ℕ} :
    ∀ {fuel : ℕ} {heap : List ℕ} {pos x : ℕ},
      x ∈ siftdownLoop lt newitem startpos fuel heap pos →
      x ∈ heap ∨ x = newitem ∨ x = 0 := by
  intro fuel
  induction fuel with
  | zero =>
    intro heap pos x h
    simp only [siftdownLoop] at h
    rcases List.mem_or_eq_of_mem_set h with h | h
    · exact Or.inl h
    · exact Or.inr (Or.inl h)
  | succ f ih =>
    intro heap pos x h
    simp only [siftdownLoop] at h
    split at h
    · split at h
      · rcases ih h with h | h | h
        · rcases List.mem_or_eq_of_mem_set h with h | h
          · exact Or.inl h
          · rcases getD_mem_or_zero heap _ with hm | hm
            · exact Or.inl (h ▸ hm)
            · exact Or.inr (Or.inr (h ▸ hm))
        · exact Or.inr (Or.inl h)
        · exact Or.inr (Or.inr h)
      · rcases List.mem_or_eq_of_mem_set h with h | h
        · exact Or.inl h
        · exact Or.inr (Or.inl h)
    · rcases List.mem_or_eq_of_mem_set h with h | h
      · exact Or.inl h
      · exact Or.inr (Or.inl h)

theorem mem_siftdown {lt : ℕ → ℕ → Bool} {heap : List ℕ}
    {startpos pos x : ℕ} (h : x ∈ siftdown lt heap startpos pos) :
    x ∈ heap ∨ x = 0 := by
  unfold siftdown at h
  rcases mem_siftdownLoop h with h | h | h
  · exact Or.inl h
  · rcases getD_mem_or_zero heap pos with hm | hm
    · exact Or.inl (h ▸ hm)
    · exact Or.inr (h ▸ hm)
  · exact Or.inr h

theorem mem_siftupLoop {lt : ℕ → ℕ → Bool} {endpos : ℕ} :
    ∀ {fuel : ℕ} {heap : List ℕ} {pos x : ℕ},
      x ∈ (siftupLoop lt endpos fuel heap pos).1 → x ∈ heap ∨ x = 0 := by
  intro fuel
  induction fuel with
  | zero => intro heap pos x h; exact Or.inl h
  | succ f ih =>
    intro heap pos x h
    simp only [siftupLoop] at h
    split at h
    · rcases ih h with h | h
      · rcases List.mem_or_eq_of_mem_set h with h | h
        · exact Or.inl h
        · rcases getD_mem_or_zero heap _ with hm | hm
          · exact Or.inl (h ▸ hm)
          · exact Or.inr (h ▸ hm)
      · exact Or.inr h
    · exact Or.inl h

theorem mem_siftup {lt : ℕ → ℕ → Bool} {heap : List ℕ} {pos x : ℕ}
    (h : x ∈ siftup lt heap pos) : x ∈ heap ∨ x = 0 := by
  unfold siftup at h
  rcases mem_siftdown h with h | h
  · rcases List.mem_or_eq_of_mem_set h with h | h
    · exact mem_siftupLoop h
    · rcases getD_mem_or_zero heap pos with hm | hm
      · exact Or.inl (h ▸ hm)
      · exact Or.inr (h ▸ hm)
  · exact Or.inr h

theorem mem_heappush {lt : ℕ → ℕ → Bool} {heap : List ℕ} {item x : ℕ}
    (h : x ∈ heappush lt heap item) : x ∈ heap ∨ x = item ∨ x = 0 := by
  unfold heappush at h
  rcases mem_siftdown h with h | h
  · rcases List.mem_append.mp h with h | h
    · exact Or.inl h
    · exact Or.inr (Or.inl (List.mem_singleton.mp h))
  · exact Or.inr (Or.inr h)

theorem heappop_spec {lt : ℕ → ℕ → Bool} {heap h1 : List ℕ} {x : ℕ}
    (h : heappop lt heap = some (x, h1)) :
    x ∈ heap ∧ ∀ y ∈ h1, y ∈ heap ∨ y = 0 := by
  unfold heappop at h
  cases hl : heap.getLast? with
  | none => rw [hl] at h; cases h
  | some lastelt =>
    rw [hl] at h
    have hlast : lastelt ∈ heap := List.mem_of_mem_getLast? hl
    cases hd : heap.dropLast with
    | nil =>
      rw [hd] at h
      refine ⟨?_, ?_⟩
      · cases h; exact hlast
      · cases h
        intro y hy
        cases hy
    | cons a rest =>
      rw [hd] at h
      have hsub : a :: rest ⊆ heap := by
        rw [← hd]
        exact (List.dropLast_sublist heap).subset
      have hx : x = a ∧ h1 = siftup lt (lastelt :: rest) 0 := by
        have h2 := h.symm
        simp only [Option.some.injEq, Prod.mk.injEq] at h2
        exact h2
      obtain ⟨rfl, rfl⟩ := hx
      refine ⟨hsub (List.mem_cons_self _ rest), ?_⟩
      intro y hy
      rcases mem_siftup hy with hy | hy
      · rcases List.mem_cons.mp hy with hy | hy
        · exact Or.inl (hy ▸ hlast)
        · exact Or.inl (hsub (List.mem_cons_of_mem _ hy))
      · exact Or.inr hy

theorem lt_length_of_getElem? {α : Type} {l : List α} {i : ℕ} {a : α}
    (h : l[i]? = some a) : i < l.length := by
  by_contra hc
  push_neg at hc
  rw [List.getElem?_eq_none_iff.mpr hc] at h
  cases h

theorem getD_of_getElem? {l : List RetrievalNode} {i : ℕ}
    {n : RetrievalNode} (h : l[i]? = some n) : l.getD i default = n := by
  rw [List.getD_eq_getElem?_getD, h]
  rfl

theorem getElem?_eq_getD {l : List RetrievalNode} {i : ℕ}
    (h : i < l.length) : l[i]? = some (l.getD i default) := by
  cases hg : l[i]? with
  | none => exact absurd (List.getElem?_eq_none_iff.mp hg) (by omega)
  | some a => rw [List.getD_eq_getElem?_getD, hg]; rfl

theorem wfChain_child {store2 : List RetrievalNode} {closed : List GridPos}
    {cid : ℕ} {cur : RetrievalNode}
    (hget : store2[cid]? = some cur) (hc : cur.position ∈ closed)
    (hwf : wfChain store2 closed cur.g_cost.toNat cur)
    (h0 : 0 ≤ cur.g_cost) (n : RetrievalNode)
    (hp : n.parent = some cid) (hg : n.g_cost = cur.g_cost + 1) :
    wfChain store2 closed n.g_cost.toNat n := by
  have hkey : n.g_cost.toNat = cur.g_cost.toNat + 1 := by omega
  rw [hkey]
  exact Or.inr ⟨cid, cur, hp, hget, hc, by omega, hwf⟩

theorem processNeighbor_inv (cmp : RetrievalNode → RetrievalNode → Bool)
    (target_pos : GridPos) (bonus : ℚ) (currentId : ℕ)
    (st : AStarState) (np : GridPos)
    (inv : SearchInv st)
    (hcid : currentId < st.store.length)
    (hcur : (st.store.getD currentId default).position ∈ st.closed_set) :
    SearchInv (processNeighbor cmp target_pos bonus currentId st np)
    ∧ (processNeighbor cmp target_pos bonus currentId st np).closed_set
        = st.closed_set
    ∧ st.store.length
        ≤ (processNeighbor cmp target_pos bonus currentId st np).store.length
    ∧ (processNeighbor cmp target_pos bonus currentId st np).store.getD
        currentId default = st.store.getD currentId default := by
  have hcur_get : st.store[currentId]?
      = some (st.store.getD currentId default) := getElem?_eq_getD hcid
  have hcur_mem : st.store.getD currentId default ∈ st.store :=
    List.getElem?_mem hcur_get
  have hwfc := inv.storeWF _ hcur_mem
  simp only [processNeighbor]
  by_cases h1 : np ∈ st.closed_set
  · rw [if_pos h1]
    exact ⟨inv, rfl, le_refl _, rfl⟩
  · rw [if_neg h1]
    by_cases h2 : np ∉ st.open_set
    · rw [if_pos h2]
      refine ⟨?_, rfl, by simp, ?_⟩
      · constructor
        · intro n hn
          rcases List.mem_append.mp hn with hn | hn
          · exact wfChain_append _ (inv.storeWF n hn)
          · rw [List.mem_singleton.mp hn]
            exact wfChain_child
              (by rw [List.getElem?_append_left hcid]; exact hcur_get)
              hcur (wfChain_append _ hwfc) (wfChain_nonneg hwfc) _ rfl rfl
        · intro p i hpi
          rcases dictGet_dictInsert_cases hpi with ⟨hp, hi⟩ | hold2
          · subst hp; subst hi
            exact ⟨_, List.getElem?_concat_length _ _, rfl⟩
          · obtain ⟨n, hn, hnp2⟩ := inv.dictWF p i hold2
            exact ⟨n,
              by rw [List.getElem?_append_left (lt_length_of_getElem? hn)]
                 exact hn, hnp2⟩
        · intro j hj
          dsimp only
          simp only [List.length_append, List.length_singleton]
          rcases mem_heappush hj with hj | hj | hj
          · have := inv.heapWF j hj
            omega
          · subst hj
            omega
          · subst hj
            have := inv.storeNE
            omega
        · have := inv.storeNE
          dsimp only
          simp only [List.length_append, List.length_singleton]
          omega
      · rw [List.getD_eq_getElem?_getD, List.getElem?_append_left hcid,
          ← List.getD_eq_getElem?_getD]
    · rw [if_neg h2]
      cases heq : dictGet st.nodesDict np with
      | none => exact ⟨inv, rfl, le_refl _, rfl⟩
      | some nid =>
        dsimp only
        by_cases h3 : (st.store.getD currentId default).g_cost + 1
            < (st.store.getD nid default).g_cost
        · rw [if_pos h3]
          obtain ⟨v, hv, hvp⟩ := inv.dictWF np nid heq
          have hold : st.store.getD nid default = v := getD_of_getElem? hv
          have hnidlen : nid < st.store.length := lt_length_of_getElem? hv
          have hvnotc : v.position ∉ st.closed_set := by rw [hvp]; exact h1
          have hcidnid : currentId ≠ nid := by
            intro he
            rw [he, hold, hvp] at hcur
            exact h1 hcur
          refine ⟨?_, rfl, by rw [List.length_set], ?_⟩
          · constructor
            · intro n hn
              rcases List.mem_or_eq_of_mem_set hn with hn | hn
              · exact wfChain_set hv hvnotc (inv.storeWF n hn)
              · rw [hn]
                exact wfChain_child
                  (by rw [List.getElem?_set_ne (Ne.symm hcidnid)]
                      exact hcur_get)
                  hcur (wfChain_set hv hvnotc hwfc) (wfChain_nonneg hwfc)
                  _ rfl rfl
            · intro p i hpi
              obtain ⟨n, hn, hnp2⟩ := inv.dictWF p i hpi
              by_cases hii : i = nid
              · subst hii
                refine ⟨_, List.getElem?_set_self (by omega), ?_⟩
                have hnv : n = v := by
                  rw [hv] at hn
                  cases hn
                  rfl
                show (st.store.getD i default).position = p
                rw [hold, ← hnv]
                exact hnp2
              · exact ⟨n,
                  by rw [List.getElem?_set_ne (fun he => hii he.symm)]
                     exact hn, hnp2⟩
            · intro j hj
              rcases mem_heappush hj with hj | hj | hj
              · have := inv.heapWF j hj
                rw [List.length_set]
                omega
              · subst hj
                rw [List.length_set]
                omega
              · subst hj
                have := inv.storeNE
                rw [List.length_set]
                omega
            · have := inv.storeNE
              rw [List.length_set]
              omega
          · rw [List.getD_eq_getElem?_getD,
              List.getElem?_set_ne (Ne.symm hcidnid),
              ← List.getD_eq_getElem?_getD]
        · rw [if_neg h3]
          exact ⟨inv, rfl, le_refl _, rfl⟩

theorem foldPN_inv (cmp : RetrievalNode → RetrievalNode → Bool)
    (target_pos : GridPos) (bonus : ℚ) (currentId : ℕ) :
    ∀ (vs : List GridPos) (st : AStarState), SearchInv st →
      currentId < st.store.length →
      (st.store.getD currentId default).position ∈ st.closed_set →
      SearchInv
        (vs.foldl (processNeighbor cmp target_pos bonus currentId) st) := by
  intro vs
  induction vs with
  | nil => intro st inv _ _; exact inv
  | cons v rest ih =>
    intro st inv hcid hcur
    simp only [List.foldl_cons]
    obtain ⟨inv1, hclosed, hlen, hgetD⟩ :=
      processNeighbor_inv cmp target_pos bonus currentId st v inv hcid hcur
    exact ih _ inv1 (by omega) (by rw [hgetD, hclosed]; exact hcur)

theorem astarLoop_final (cmp : RetrievalNode → RetrievalNode → Bool)
    (e : PriorityAStarRetrieval) (target_pos : GridPos) (bonus : ℚ) :
    ∀ (fuel : ℕ) (st : AStarState) (fid : ℕ) (stF : AStarState),
      astarLoop cmp e target_pos bonus fuel st = some (fid, stF) →
      SearchInv st →
      ∃ n, stF.store[fid]? = some n
        ∧ wfChain stF.store stF.closed_set n.g_cost.toNat n := by
  intro fuel
  induction fuel with
  | zero =>
    intro st fid stF h _
    simp only [astarLoop] at h
    cases h
  | succ f ih =>
    intro st fid stF h inv
    simp only [astarLoop] at h
    cases hpop : heappop (storeLtWith cmp st.store) st.open_pq with
    | none => rw [hpop] at h; cases h
    | some pr =>
      obtain ⟨cid, pq1⟩ := pr
      rw [hpop] at h
      dsimp only at h
      obtain ⟨hcid_mem, hpq1⟩ := heappop_spec hpop
      have hcid : cid < st.store.length := inv.heapWF cid hcid_mem
      have inv1 : SearchInv { st with open_pq := pq1 } := by
        refine ⟨inv.storeWF, inv.dictWF, ?_, inv.storeNE⟩
        intro j hj
        rcases hpq1 j hj with hj | hj
        · exact inv.heapWF j hj
        · rw [hj]
          exact inv.storeNE
      cases hd : dictGet st.nodesDict
          ((st.store.getD cid default).position) with
      | none => rw [hd] at h; cases h
      | some bid =>
        rw [hd] at h
        dsimp only at h
        split at h
        · exact ih _ fid stF h inv1
        · split at h
          · simp only [Option.some.injEq, Prod.mk.injEq] at h
            obtain ⟨h4, h5⟩ := h
            subst h4
            subst h5
            exact ⟨st.store.getD cid default, getElem?_eq_getD hcid,
              inv.storeWF _ (List.getElem?_mem (getElem?_eq_getD hcid))⟩
          · have inv2 : SearchInv
                { st with
                    open_pq := pq1
                    open_set :=
                      st.open_set.erase (st.store.getD cid default).position
                    closed_set :=
                      (st.store.getD cid default).position
                        :: st.closed_set } := by
              refine ⟨?_, inv.dictWF, inv1.heapWF, inv.storeNE⟩
              intro n hn
              exact wfChain_closed_cons _ (inv.storeWF n hn)
            have hcur2 := List.mem_cons_self
              (st.store.getD cid default).position st.closed_set
            exact ih _ fid stF h
              (foldPN_inv cmp target_pos bonus cid _ _ inv2 hcid hcur2)

theorem reconstruct_path_spec (e : PriorityAStarRetrieval)
    (store : List RetrievalNode) (closed : List GridPos)
    (final_node : RetrievalNode) (itemId : ℤ)
    (hwf : wfChain store closed final_node.g_cost.toNat final_node) :
    (reconstruct_path e store final_node itemId).total_cost
      = ((reconstruct_path e store final_node itemId).steps.length : ℤ)
    ∧ (1 : ℚ) / 10 ≤ (reconstruct_path e store final_node itemId).safety_score
    ∧ (reconstruct_path e store final_node itemId).safety_score ≤ 1
    ∧ ((reconstruct_path e store final_node itemId).steps.length = 0 →
        (reconstruct_path e store final_node itemId).safety_score = 1)
    ∧ (reconstruct_path e store final_node itemId).safety_score
        = clampQ (1 / 10) 1
            (if (reconstruct_path e store final_node itemId).steps.length = 0
             then 1
             else 1 - (verticalMoves
                  (reconstruct_path e store final_node itemId).steps : ℚ)
               / (2 * ((reconstruct_path e store final_node
                  itemId).steps.length : ℚ))) := by
  have hlen : (reconstruct_path e store final_node itemId).steps.length
      = final_node.g_cost.toNat := by
    show ((buildStepsAux store itemId _ final_node.g_cost.toNat
      final_node).reverse).length = _
    rw [List.length_reverse]
    exact buildStepsAux_length itemId _ _ final_node hwf rfl
  have hsafety : (reconstruct_path e store final_node itemId).safety_score
      = max (1 / 10) (min 1
          (if (reconstruct_path e store final_node itemId).steps.length = 0
           then (1 : ℚ)
           else 1 - (verticalMoves
                (reconstruct_path e store final_node itemId).steps : ℚ)
             / (((reconstruct_path e store final_node
                itemId).steps.length : ℚ) * 2))) := rfl
  refine ⟨?_, ?_, ?_, ?_, ?_⟩
  · show final_node.g_cost = _
    rw [hlen]
    exact (Int.toNat_of_nonneg (wfChain_nonneg hwf)).symm
  · rw [hsafety]
    exact le_max_left _ _
  · rw [hsafety]
    exact max_le (by norm_num) (min_le_left _ _)
  · intro h0
    rw [hsafety, if_pos h0, min_self]
    exact max_eq_right (by norm_num)
  · rw [hsafety]
    unfold clampQ
    rw [mul_comm ((reconstruct_path e store final_node
      itemId).steps.length : ℚ) 2]

/-- **C10.**  Implicit postcondition of every returned retrieval path: the
total cost equals the number of steps (uniform unit cost per step), the
safety score lies within the closed interval from 0.1 to 1.0 and equals the
clamp of `1 - verticalMoves / (2 * pathLength)` (with the convention that a
zero-length path scores exactly 1.0 before clamping, hence exactly 1.0). -/
theorem C10_path_postconditions (e : PriorityAStarRetrieval)
    (start_pos target_pos : GridPos) (itemId : ℤ) (rp : RetrievalPath)
    (h : find_retrieval_path e start_pos target_pos itemId = some rp) :
    rp.total_cost = (rp.steps.length : ℤ)
    ∧ (1 : ℚ) / 10 ≤ rp.safety_score
    ∧ rp.safety_score ≤ 1
    ∧ (rp.steps.length = 0 → rp.safety_score = 1)
    ∧ rp.safety_score
        = clampQ (1 / 10) 1
            (if rp.steps.length = 0 then 1
             else 1 - (verticalMoves rp.steps : ℚ)
               / (2 * (rp.steps.length : ℚ))) := by
  unfold find_retrieval_path at h
  simp only [searchWith] at h
  cases henv : (if is_valid_position e start_pos then some e
    else if start_pos = ((0 : ℤ), (0 : ℤ), (0 : ℤ)) then
      some { e with occupied_spaces :=
        e.occupied_spaces.filter (fun p => decide (p ≠ start_pos)) }
    else none) with
  | none =>
    rw [henv] at h
    cases h
  | some env =>
    rw [henv] at h
    dsimp only at h
    split at h
    · cases h
    · split at h
      · rename_i fid stF hloop
        simp only [Option.some.injEq] at h
        subst h
        have inv0 : SearchInv
            { store := [(⟨start_pos, 0,
                manhattan_distance start_pos target_pos,
                manhattan_distance start_pos target_pos, none,
                calculate_priority_score (dictGet env.items_data
                  itemId)⟩ : RetrievalNode)]
              nodesDict := [(start_pos, 0)]
              open_pq := heappush (storeLtWith nodeLt
                [⟨start_pos, 0, manhattan_distance start_pos target_pos,
                  manhattan_distance start_pos target_pos, none,
                  calculate_priority_score (dictGet env.items_data
                    itemId)⟩]) [] 0
              open_set := [start_pos]
              closed_set := [] } := by
          refine ⟨?_, ?_, ?_, by simp⟩
          · intro n hn
            rw [List.mem_singleton.mp hn]
            exact ⟨rfl, rfl⟩
          · intro p i hpi
            by_cases hp : start_pos = p
            · rw [dictGet_cons_pos hp] at hpi
              cases hpi
              exact ⟨_, rfl, hp⟩
            · rw [dictGet_cons_neg hp] at hpi
              simp [dictGet] at hpi
          · intro j hj
            rcases mem_heappush hj with hj | hj | hj
            · cases hj
            · rw [hj]; simp
            · rw [hj]; simp
        obtain ⟨n, hn, hwf⟩ :=
          astarLoop_final nodeLt env target_pos _ _ _ fid stF hloop inv0
        rw [getD_of_getElem? hn]
        exact reconstruct_path_spec env stF.store stF.closed_set n
          itemId hwf
      · cases h

theorem astar_trivial_run :
    find_retrieval_path trivEnv (0, 0, 0) (0, 0, 0) 1 = some trivPath := by
  rw [find_retrieval_path_eq_searchZ trivEnv (0, 0, 0) (0, 0, 0) 1 rfl]
  have h0 : searchWith nodeLtZ trivEnv (0, 0, 0) (0, 0, 0) 1
      = some ⟨[], 0, 0, max (1 / 10) (min 1 1)⟩ := rfl
  rw [h0]
  refine congrArg some ?_
  unfold trivPath
  have h1 : max ((1 : ℚ) / 10) (min 1 1) = 1 := by
    rw [min_self]
    exact max_eq_right (by norm_num)
  rw [h1]

/-- C10 witness: the trivial retrieval run (one-cell container, start equal
to target) returns the empty path, on which the postcondition theorem yields
cost zero and safety score one. -/
theorem C10_witness :
    find_retrieval_path trivEnv (0, 0, 0) (0, 0, 0) 1 = some trivPath
    ∧ trivPath.total_cost = (trivPath.steps.length : ℤ)
    ∧ trivPath.safety_score = 1 :=
  ⟨astar_trivial_run,
    (C10_path_postconditions trivEnv (0, 0, 0) (0, 0, 0) 1 trivPath
      astar_trivial_run).1,
    (C10_path_postconditions trivEnv (0, 0, 0) (0, 0, 0) 1 trivPath
      astar_trivial_run).2.2.2.1 rfl⟩
